import Mathlib

/-!
# Verification of the mcp-evernote Markdown/ENML converter core

Shallow embedding of the conversion and patching core of the
`verygoodplugins/mcp-evernote` repository:

* the Patch Engine (`patchNoteContent` replacement loop and abort guards,
  `src/evernote-api.ts` lines 782-884),
* the content hash (`computeHash`, MD5 via node `crypto`,
  `src/evernote-api.ts` lines 1280-1282),
* the attachment registry (`registerAttachment`, `src/index.ts` 1900-1914),
* image/resource resolution (`renderImage` / `resolveLocalPath`,
  `src/index.ts` 1832-1968),
* the reverse converter's `en-media` rewrite step
  (`src/index.ts` 1806-1819) with `parseAttributes` and the escaping helpers,
* the sanitizer configuration and tag/attribute filtering applied as the
  last step of `markdownToENML` (`src/index.ts` 1735-1749 and 1777-1782).

Strings are modelled as `List Char`; JavaScript string primitives used by
the source (`String.prototype.match` with an escaped-literal global regex,
`split`/`join`, `replace` with a string pattern including the ECMA-262
`GetSubstitution` treatment of `$`-patterns in the replacement, `trim`,
`toLowerCase` restricted to ASCII) are embedded as executable functions.
Scanning functions recurse on an explicit bound (always instantiated with
the string length) so that they are structurally recursive and reduce
inside the kernel.
-/

set_option maxHeartbeats 1600000
set_option linter.unusedVariables false

namespace Spec2Proof

/-! ## JavaScript string primitives -/

/-- `listStartsWith p s` : `p` is a prefix of `s` (JS `startsWith`). -/
def listStartsWith (p s : List Char) : Bool :=
  match p, s with
  | [], _ => true
  | _ :: _, [] => false
  | a :: p', b :: s' => a = b && listStartsWith p' s'

/-- Left-to-right non-overlapping count of the literal pattern `find`,
recursing on the bound `fuel` (callers pass the length of the string, so
the exhaustion case is unreachable). -/
def countOccF (find : List Char) : Nat → List Char → Nat
  | _, [] => 0
  | 0, _ :: _ => 0
  | fuel + 1, c :: t =>
    if find ≠ [] ∧ listStartsWith find (c :: t) = true then
      1 + countOccF find fuel ((c :: t).drop find.length)
    else
      countOccF find fuel t

/-- Non-overlapping left-to-right match count of a non-empty literal
pattern. -/
def countOccAux (find s : List Char) : Nat :=
  countOccF find s.length s

/-- Number of matches of the global regex built in
`patchNoteContent` (`src/evernote-api.ts:800-802`): the pattern is `find`
with every regex metacharacter escaped
(`find.replace` with the metacharacter class and a backslash prefix), so
it matches exactly the literal string, and a global match yields the
non-overlapping left-to-right matches.  An empty pattern matches once at
every position (`length + 1` matches), which is what
`String.prototype.match` returns for an empty global regex. -/
def jsMatchCountLiteral (s find : List Char) : Nat :=
  if find = [] then s.length + 1 else countOccAux find s

/-- JS `String.prototype.split` with a non-empty string separator,
recursing on the bound `fuel`; `acc` is the piece being built. -/
def jsSplitF (sep : List Char) : Nat → List Char → List Char → List (List Char)
  | _, acc, [] => [acc]
  | 0, acc, _ :: _ => [acc]
  | fuel + 1, acc, c :: t =>
    if sep ≠ [] ∧ listStartsWith sep (c :: t) = true then
      acc :: jsSplitF sep fuel [] ((c :: t).drop sep.length)
    else
      jsSplitF sep fuel (acc ++ [c]) t

def jsSplitAux (sep acc s : List Char) : List (List Char) :=
  jsSplitF sep s.length acc s

/-- JS `String.prototype.split` with a string separator
(`markdown.split(find)` in `src/evernote-api.ts:808`): splits at each
non-overlapping left-to-right occurrence.  For the empty separator JS
splits into single characters (and splitting the empty string with the
empty separator gives the empty array). -/
def jsSplit (s sep : List Char) : List (List Char) :=
  if sep = [] then s.map (fun c => [c])
  else jsSplitAux sep [] s

/-- JS `Array.prototype.join`: pieces interleaved with the separator
(joining the empty array gives the empty string). -/
def jsJoin (sep : List Char) : List (List Char) → List Char
  | [] => []
  | [x] => x
  | x :: y :: l => x ++ sep ++ jsJoin sep (y :: l)

/-- `markdown.split(find).join(replace)` — the `replaceAll` path of the
Patch Engine (`src/evernote-api.ts:808`). The replacement string is used
literally (no `$`-pattern processing happens in `join`). -/
def jsSplitJoinReplace (s find repl : List Char) : List Char :=
  jsJoin repl (jsSplit s find)

/-- Index of the first occurrence of `find` in `s` starting the scan at
offset `i` (offsets are absolute). -/
def firstIndexAux (find : List Char) : List Char → Nat → Option Nat
  | [], i => if listStartsWith find [] then some i else none
  | c :: t, i =>
    if listStartsWith find (c :: t) then some i
    else firstIndexAux find t (i + 1)

def firstIndex? (s find : List Char) : Option Nat :=
  firstIndexAux find s 0

/-- ECMA-262 `GetSubstitution` for a string pattern (no capture groups):
in the replacement string, `$$` yields `$`, `$&` the matched substring,
``$` `` the text before the match, `$'` the text after the match; any
other `$`-sequence is literal.  This is applied by
`String.prototype.replace` on the `replaceAll:false` path of the Patch
Engine (`markdown.replace(find, replace)`, `src/evernote-api.ts:811`). -/
def getSubstitution (matched pre post : List Char) : List Char → List Char
  | [] => []
  | '$' :: '$' :: t => '$' :: getSubstitution matched pre post t
  | '$' :: '&' :: t => matched ++ getSubstitution matched pre post t
  | '$' :: '`' :: t => pre ++ getSubstitution matched pre post t
  | '$' :: '\'' :: t => post ++ getSubstitution matched pre post t
  | c :: t => c :: getSubstitution matched pre post t

/-- JS `s.replace(find, repl)` with string arguments: replaces the first
occurrence of the literal `find`, with `GetSubstitution` applied to the
replacement. If there is no occurrence the string is unchanged. -/
def jsReplaceFirst (s find repl : List Char) : List Char :=
  match firstIndex? s find with
  | none => s
  | some i =>
      s.take i ++
        getSubstitution find (s.take i) (s.drop (i + find.length)) repl ++
        s.drop (i + find.length)

/-- JS whitespace characters recognised by `String.prototype.trim`
(restricted to the code points that occur in this code base: ASCII
whitespace, NBSP and the BOM). -/
def isJsWhitespace (c : Char) : Bool :=
  c.val = 9 || c.val = 10 || c.val = 11 || c.val = 12 || c.val = 13 ||
  c.val = 32 || c.val = 160 || c.val = 65279

/-- JS `String.prototype.trim`. -/
def jsTrim (s : List Char) : List Char :=
  ((s.dropWhile isJsWhitespace).reverse.dropWhile isJsWhitespace).reverse

/-- ASCII `toLowerCase` (the digests and schemes the converter lowercases
are ASCII). -/
def toLowerList (s : List Char) : List Char := s.map Char.toLower

/-- `find` occurs in `s` at index `i`. -/
def substrAt (find s : List Char) (i : Nat) : Prop :=
  listStartsWith find (s.drop i) = true

instance (find s : List Char) (i : Nat) : Decidable (substrAt find s i) := by
  unfold substrAt
  infer_instance

/-! ## The Patch Engine (`patchNoteContent`, `src/evernote-api.ts:782-884`)

The pure replacement loop and the two abort guards.  The surrounding
I/O — fetching the note, the ENML↔Markdown conversion, restoring
resources and calling `noteStore.updateNote` — is kept abstract; the
outcome records whether the commit path (and hence `updateNote`) is
reached. -/

/-- `NoteReplacement` (`src/types.ts`): `replaceAll` is optional and the
destructuring in `patchNoteContent` defaults it to `true` when absent. -/
structure NoteReplacement where
  find : String
  replace : String
  replaceAll : Option Bool
deriving DecidableEq

/-- One entry of the `changes` array accumulated per replacement. -/
structure ReplacementChange where
  find : String
  occurrences : Nat
  replaced : Nat
deriving DecidableEq

/-- String-level wrappers. -/
def jsMatchCount (s find : String) : Nat :=
  jsMatchCountLiteral s.data find.data

def jsSplitJoin (s find repl : String) : String :=
  ⟨jsSplitJoinReplace s.data find.data repl.data⟩

def jsReplaceFirstStr (s find repl : String) : String :=
  ⟨jsReplaceFirst s.data find.data repl.data⟩

def jsTrimStr (s : String) : String := ⟨jsTrim s.data⟩

/-- One iteration of the replacement loop
(`src/evernote-api.ts:796-821`): count occurrences with the
escaped-literal global regex, then either `split`/`join` (replaceAll) or
`String.prototype.replace` (first occurrence only), recording
`{find, occurrences, replaced}`. -/
def applyReplacement (markdown : String) (r : NoteReplacement) :
    String × ReplacementChange :=
  let occurrences := jsMatchCount markdown r.find
  if 0 < occurrences then
    if r.replaceAll.getD true then
      (jsSplitJoin markdown r.find r.replace,
        ⟨r.find, occurrences, occurrences⟩)
    else
      (jsReplaceFirstStr markdown r.find r.replace,
        ⟨r.find, occurrences, 1⟩)
  else
    (markdown, ⟨r.find, occurrences, 0⟩)

/-- The sequential replacement loop: each replacement sees the markdown
produced by the previous one. -/
def applyReplacements (markdown : String) :
    List NoteReplacement → String × List ReplacementChange
  | [] => (markdown, [])
  | r :: rest =>
    let step := applyReplacement markdown r
    let next := applyReplacements step.1 rest
    (next.1, step.2 :: next.2)

/-- Outcome of `patchNoteContent` after the replacement loop:
`updatePerformed` records whether execution reaches the
`noteStore.updateNote` call (`src/evernote-api.ts:877`). -/
structure PatchOutcome where
  success : Bool
  changes : List ReplacementChange
  warning : Option String
  updatePerformed : Bool
  newMarkdown : Option String
deriving DecidableEq

/-- The Patch Engine core (`src/evernote-api.ts:796-884`): run the
replacement loop, abort with a structured failure when nothing was
replaced or when the result trims to the empty string, otherwise commit. -/
def patchEngine (markdown : String) (rs : List NoteReplacement) :
    PatchOutcome :=
  let result : String × List ReplacementChange := applyReplacements markdown rs
  let totalReplaced : Nat := (result.2.map (fun c => c.replaced)).sum
  if totalReplaced = 0 then
    { success := false, changes := result.2,
      warning := some "No matches found for any replacement patterns",
      updatePerformed := false, newMarkdown := none }
  else if jsTrimStr result.1 = "" then
    { success := false, changes := result.2,
      warning := some "Replacement would result in empty note content - operation aborted",
      updatePerformed := false, newMarkdown := none }
  else
    { success := true, changes := result.2, warning := none,
      updatePerformed := true, newMarkdown := some result.1 }

/-! ## Hashing & identity (`computeHash`, `src/evernote-api.ts:1280-1282`)

`computeHash` is `createHash('md5').update(data).digest()`; the MD5
algorithm (RFC 1321) is embedded below over byte lists (`List Nat`, each
entry reduced mod 256).  Words are `Nat` values kept below `2^32`. -/

/-- Truncate to a 32-bit word. -/
def w32 (x : Nat) : Nat := x % 4294967296

/-- 32-bit modular addition. -/
def wadd (a b : Nat) : Nat := (a + b) % 4294967296

/-- 32-bit complement (for values below `2^32`). -/
def wnot (x : Nat) : Nat := Nat.xor (x % 4294967296) 4294967295

/-- 32-bit left rotation (for values below `2^32`). -/
def wrotl (x s : Nat) : Nat :=
  ((x % 4294967296) * 2 ^ s + (x % 4294967296) / 2 ^ (32 - s)) % 4294967296

def md5F (b c d : Nat) : Nat := Nat.lor (Nat.land b c) (Nat.land (wnot b) d)
def md5G (b c d : Nat) : Nat := Nat.lor (Nat.land d b) (Nat.land (wnot d) c)
def md5H (b c d : Nat) : Nat := Nat.xor b (Nat.xor c d)
def md5I (b c d : Nat) : Nat := Nat.xor c (Nat.lor b (wnot d))

/-- The 64 MD5 sine-derived constants (RFC 1321). -/
def md5K : List Nat :=
  [0xd76aa478, 0xe8c7b756, 0x242070db, 0xc1bdceee,
   0xf57c0faf, 0x4787c62a, 0xa8304613, 0xfd469501,
   0x698098d8, 0x8b44f7af, 0xffff5bb1, 0x895cd7be,
   0x6b901122, 0xfd987193, 0xa679438e, 0x49b40821,
   0xf61e2562, 0xc040b340, 0x265e5a51, 0xe9b6c7aa,
   0xd62f105d, 0x02441453, 0xd8a1e681, 0xe7d3fbc8,
   0x21e1cde6, 0xc33707d6, 0xf4d50d87, 0x455a14ed,
   0xa9e3e905, 0xfcefa3f8, 0x676f02d9, 0x8d2a4c8a,
   0xfffa3942, 0x8771f681, 0x6d9d6122, 0xfde5380c,
   0xa4beea44, 0x4bdecfa9, 0xf6bb4b60, 0xbebfbc70,
   0x289b7ec6, 0xeaa127fa, 0xd4ef3085, 0x04881d05,
   0xd9d4d039, 0xe6db99e5, 0x1fa27cf8, 0xc4ac5665,
   0xf4292244, 0x432aff97, 0xab9423a7, 0xfc93a039,
   0x655b59c3, 0x8f0ccc92, 0xffeff47d, 0x85845dd1,
   0x6fa87e4f, 0xfe2ce6e0, 0xa3014314, 0x4e0811a1,
   0xf7537e82, 0xbd3af235, 0x2ad7d2bb, 0xeb86d391]

/-- Per-round left-rotation amounts. -/
def md5Shift (i : Nat) : Nat :=
  let j := i % 4
  if i < 16 then [7, 12, 17, 22].getD j 0
  else if i < 32 then [5, 9, 14, 20].getD j 0
  else if i < 48 then [4, 11, 16, 23].getD j 0
  else [6, 10, 15, 21].getD j 0

/-- Message-word index used in round `i`. -/
def md5Index (i : Nat) : Nat :=
  if i < 16 then i
  else if i < 32 then (5 * i + 1) % 16
  else if i < 48 then (3 * i + 5) % 16
  else (7 * i) % 16

/-- One of the 64 MD5 rounds on state `(a, b, c, d)`. -/
def md5Round (M : List Nat) (st : Nat × Nat × Nat × Nat) (i : Nat) :
    Nat × Nat × Nat × Nat :=
  let a := st.1
  let b := st.2.1
  let c := st.2.2.1
  let d := st.2.2.2
  let f :=
    if i < 16 then md5F b c d
    else if i < 32 then md5G b c d
    else if i < 48 then md5H b c d
    else md5I b c d
  let tmp := wadd (wadd (wadd a f) (md5K.getD i 0)) (M.getD (md5Index i) 0)
  (d, wadd b (wrotl tmp (md5Shift i)), b, c)

/-- Process one 16-word block. -/
def md5ProcessBlock (st : Nat × Nat × Nat × Nat) (M : List Nat) :
    Nat × Nat × Nat × Nat :=
  let r := (List.range 64).foldl (md5Round M) st
  (wadd st.1 r.1, wadd st.2.1 r.2.1, wadd st.2.2.1 r.2.2.1,
    wadd st.2.2.2 r.2.2.2)

/-- `n` serialized as `k` little-endian bytes. -/
def toLEBytes (k n : Nat) : List Nat :=
  (List.range k).map (fun i => (n / 2 ^ (8 * i)) % 256)

/-- MD5 padding: `0x80`, zeros to 56 mod 64, then the 64-bit little-endian
bit length. -/
def md5Pad (msg : List Nat) : List Nat :=
  let len := msg.length
  let padZeros := (119 - len % 64) % 64
  msg ++ [0x80] ++ List.replicate padZeros 0 ++
    toLEBytes 8 ((len * 8) % 18446744073709551616)

/-- Little-endian 4-byte words from a byte list (byte values reduced mod
256; trailing fragments shorter than a word do not occur on padded
input). -/
def bytesToWords : List Nat → List Nat
  | b0 :: b1 :: b2 :: b3 :: rest =>
      (b0 % 256 + (b1 % 256) * 256 + (b2 % 256) * 65536 +
        (b3 % 256) * 16777216) :: bytesToWords rest
  | _ => []

/-- Split into 64-byte chunks, recursing on a bound (instantiated with
the list length). -/
def chunksF : Nat → List Nat → List (List Nat)
  | _, [] => []
  | 0, _ :: _ => []
  | fuel + 1, b :: rest => (b :: rest).take 64 :: chunksF fuel ((b :: rest).drop 64)

def chunks64 (l : List Nat) : List (List Nat) := chunksF l.length l

/-- MD5 core: fold the block function over the padded message starting
from the standard initial state. -/
def md5Core (bytes : List Nat) : Nat × Nat × Nat × Nat :=
  (chunks64 (md5Pad bytes)).foldl
    (fun st blk => md5ProcessBlock st (bytesToWords blk))
    (0x67452301, 0xefcdab89, 0x98badcfe, 0x10325476)

def wordToBytesLE (w : Nat) : List Nat :=
  [w % 256, (w / 256) % 256, (w / 65536) % 256, (w / 16777216) % 256]

/-- `computeHash` (`src/evernote-api.ts:1280-1282`): the 16-byte MD5
digest of a byte buffer. -/
def computeHash (bytes : List Nat) : List Nat :=
  wordToBytesLE (md5Core bytes).1 ++ wordToBytesLE (md5Core bytes).2.1 ++
  wordToBytesLE (md5Core bytes).2.2.1 ++ wordToBytesLE (md5Core bytes).2.2.2

/-- One byte as two lowercase hex characters (`Nat.digitChar` maps
`0`-`15` to `0`-`9`, `a`-`f`). -/
def byteToHex (b : Nat) : List Char :=
  [Nat.digitChar ((b / 16) % 16), Nat.digitChar (b % 16)]

/-- `Buffer.prototype.toString('hex')`: lowercase hex encoding. -/
def bytesToHexStr (bytes : List Nat) : String :=
  ⟨bytes.foldr (fun b acc => byteToHex b ++ acc) []⟩

/-- `Buffer.from(hex, 'hex')`. -/
def hexVal (c : Char) : Nat :=
  if c.isDigit then c.toNat - 48
  else if 'a' ≤ c ∧ c ≤ 'f' then c.toNat - 87
  else if 'A' ≤ c ∧ c ≤ 'F' then c.toNat - 55
  else 0

def hexToBytes : List Char → List Nat
  | a :: b :: t => (hexVal a * 16 + hexVal b) :: hexToBytes t
  | _ => []

/-! ## Attachment registry (`src/index.ts:1705-1728, 1900-1914, 1970-1984`) -/

def toLowerStr (s : String) : String := ⟨toLowerList s.data⟩

/-- `MarkdownExistingResource` (`src/index.ts:1705-1711`); the `resource`
handle (`any` in the source) is an opaque token. -/
structure MarkdownExistingResource where
  hashHex : String
  mimeType : Option String
  filename : Option String
  sourceURL : Option String
  resource : Option String
deriving DecidableEq

/-- `MarkdownAttachment` (`src/index.ts:1713-1723`). -/
structure MarkdownAttachment where
  hashHex : String
  hash : List Nat
  mimeType : String
  filename : Option String
  sourcePath : Option String
  sourceURL : Option String
  data : Option (List Nat)
  resource : Option String
  isNew : Bool
deriving DecidableEq

/-- A JS `Map` from strings, as an association list in insertion order. -/
def mapGet {α : Type} (m : List (String × α)) (k : String) : Option α :=
  (m.find? (fun p => p.1 == k)).map (fun p => p.2)

/-- JS `Map.prototype.set`: replace in place if the key is present,
append otherwise. -/
def mapSet {α : Type} (m : List (String × α)) (k : String) (v : α) :
    List (String × α) :=
  if (m.find? (fun p => p.1 == k)).isSome then
    m.map (fun p => if p.1 == k then (k, v) else p)
  else m ++ [(k, v)]

/-- The per-conversion registry state: the `attachments` array and the
`attachmentsByHash` map of `markdownToENML` (`src/index.ts:1755-1756`). -/
structure AttachmentRegistry where
  attachments : List MarkdownAttachment
  byHash : List (String × MarkdownAttachment)
deriving DecidableEq

def emptyRegistry : AttachmentRegistry := ⟨[], []⟩

/-- `registerAttachment` (`src/index.ts:1900-1914`): return the stored
entry when the digest is already present (candidate ignored), otherwise
store the candidate in both structures. -/
def registerAttachment (candidate : MarkdownAttachment)
    (reg : AttachmentRegistry) : MarkdownAttachment × AttachmentRegistry :=
  match mapGet reg.byHash candidate.hashHex with
  | some existing => (existing, reg)
  | none =>
      (candidate,
        ⟨reg.attachments ++ [candidate],
          mapSet reg.byHash candidate.hashHex candidate⟩)

/-- `buildExistingResourceMap` (`src/index.ts:1970-1984`): key the known
resources by lowercased digest, skipping entries whose `hashHex` is
falsy (the empty string). -/
def buildExistingResourceMap
    (resources : Option (List MarkdownExistingResource)) :
    List (String × MarkdownExistingResource) :=
  match resources with
  | none => []
  | some rs =>
      rs.foldl
        (fun m r =>
          if r.hashHex = "" then m else mapSet m (toLowerStr r.hashHex) r)
        []

/-! ## Escaping helpers (`src/index.ts:2000-2011`) -/

/-- `escapeHtml` (`src/index.ts:2000-2007`): five sequential global
replaces (`&`, `<`, `>`, `"`, `'`), each a literal single-character
pattern. -/
def escapeHtmlL (s : List Char) : List Char :=
  jsSplitJoinReplace
    (jsSplitJoinReplace
      (jsSplitJoinReplace
        (jsSplitJoinReplace
          (jsSplitJoinReplace s ['&'] "&amp;".data)
          ['<'] "&lt;".data)
        ['>'] "&gt;".data)
      ['"'] "&quot;".data)
    ['\''] "&#39;".data

def escapeHtml (value : String) : String := ⟨escapeHtmlL value.data⟩

/-- `escapeAttribute` (`src/index.ts:2009-2011`) delegates to
`escapeHtml`. -/
def escapeAttribute (value : String) : String := escapeHtml value

/-! ## `parseAttributes` (`src/index.ts:1986-1998`)

The source scans with the global regex
`([\w:-]+)(?:\s*=\s*("([^"]*)"|'([^']*)'|([^\s"'>]+)))?`, assigning
`attrs[key] = value` (later bindings overwrite earlier ones).  The
scanner below reproduces the regex engine's behaviour: keys are maximal
runs of `[\w:-]` characters; an optional `=` may be followed by a
double-quoted, single-quoted, or unquoted value; when no value
alternative matches, the match is the bare key and scanning resumes right
after it. -/

def isWordChar (c : Char) : Bool :=
  c.isAlpha || c.isDigit || c = '_' || c = ':' || c = '-'

/-- Attempt to parse `\s*=\s*` followed by one of the three value
alternatives; `none` means the optional group matched empty. -/
def parseAttrValue (rest : List Char) : Option (List Char × List Char) :=
  match rest.dropWhile isJsWhitespace with
  | '=' :: r2' =>
    let r2 := r2'.dropWhile isJsWhitespace
    match r2 with
    | '"' :: t =>
        let v := t.takeWhile (fun c => c ≠ '"')
        if v.length < t.length then some (v, t.drop (v.length + 1)) else none
    | '\'' :: t =>
        let v := t.takeWhile (fun c => c ≠ '\'')
        if v.length < t.length then some (v, t.drop (v.length + 1)) else none
    | _ =>
        let v := r2.takeWhile
          (fun c => ¬ isJsWhitespace c ∧ c ≠ '"' ∧ c ≠ '\'' ∧ c ≠ '>')
        if v = [] then none else some (v, r2.drop v.length)
  | _ => none

def parseAttrsF : Nat → List Char → List (String × String)
  | _, [] => []
  | 0, _ :: _ => []
  | fuel + 1, c :: t =>
    if isWordChar c then
      let key := (c :: t).takeWhile isWordChar
      let rest := (c :: t).dropWhile isWordChar
      match parseAttrValue rest with
      | some (v, rest') => (⟨key⟩, ⟨v⟩) :: parseAttrsF fuel rest'
      | none => (⟨key⟩, "") :: parseAttrsF fuel rest
    else
      parseAttrsF fuel t

def parseAttributes (input : String) : List (String × String) :=
  parseAttrsF input.data.length input.data

/-- `attrs[key]` after the scan: the value of the last binding. -/
def attrsGet (attrs : List (String × String)) (k : String) : Option String :=
  (attrs.reverse.find? (fun p => p.1 == k)).map (fun p => p.2)

/-- JS `x || y` where `x` is a string or `undefined` (empty string and
`undefined` are falsy). -/
def jsOrStr (a : Option String) (b : String) : String :=
  match a with
  | none => b
  | some s => if s = "" then b else s

/-! ## The `en-media` rewrite of `enmlToMarkdown` (`src/index.ts:1806-1819`)

`enmlToMarkdown` replaces every `<en-media ...>` element via a global
regex whose callback receives the element's attribute text.  The
callback's locals (`hash`, `type`, `existing`, `displayName`) are
embedded as named functions of the attribute text and the known-resource
map. -/

def enMediaRawHash (attrs : String) : String :=
  jsOrStr (attrsGet (parseAttributes attrs) "hash") ""

/-- `const hash = (parsed.hash || '').toLowerCase()`. -/
def enMediaHash (attrs : String) : String := toLowerStr (enMediaRawHash attrs)

/-- `const type = parsed.type || resourceMap.get(hash)?.mimeType ||
'application/octet-stream'`. -/
def enMediaType (map : List (String × MarkdownExistingResource))
    (attrs : String) : String :=
  jsOrStr (attrsGet (parseAttributes attrs) "type")
    (jsOrStr ((mapGet map (enMediaHash attrs)).bind (fun e => e.mimeType))
      "application/octet-stream")

/-- `const displayName = parsed.title || existing?.filename ||
existing?.mimeType || hash`. -/
def enMediaDisplayName (map : List (String × MarkdownExistingResource))
    (attrs : String) : String :=
  jsOrStr (attrsGet (parseAttributes attrs) "title")
    (jsOrStr ((mapGet map (enMediaHash attrs)).bind (fun e => e.filename))
      (jsOrStr ((mapGet map (enMediaHash attrs)).bind (fun e => e.mimeType))
        (enMediaHash attrs)))

/-- `const alt = parsed.alt || displayName` (image branch only). -/
def enMediaAlt (map : List (String × MarkdownExistingResource))
    (attrs : String) : String :=
  jsOrStr (attrsGet (parseAttributes attrs) "alt")
    (enMediaDisplayName map attrs)

/-- The replacement callback for one `en-media` element
(`src/index.ts:1806-1819`). -/
def enMediaReplacement (map : List (String × MarkdownExistingResource))
    (attrs : String) : String :=
  if listStartsWith "image/".data (toLowerStr (enMediaType map attrs)).data
  then
    "<img src=\"evernote-resource:" ++ enMediaHash attrs ++ "\" alt=\"" ++
      escapeAttribute (enMediaAlt map attrs) ++ "\" data-evernote-type=\"" ++
      escapeAttribute (enMediaType map attrs) ++ "\" />"
  else
    "<a href=\"evernote-resource:" ++ enMediaHash attrs ++
      "\" data-evernote-type=\"" ++
      escapeAttribute (enMediaType map attrs) ++ "\">" ++
      escapeHtml (enMediaDisplayName map attrs) ++ "</a>"

/-! ## Resource resolution (`renderImage` / `resolveLocalPath`,
`src/index.ts:1832-1968`)

The filesystem, the host URI decoder, `fileURLToPath` and the
`mime-types` lookup are abstracted into an environment record.  `none`
from `decodeURI` models a thrown `URIError` (caught by the source, which
keeps the undecoded candidate); `none` from `readFile` models a
`readFileSync` throw (caught by the source, which falls back to a plain
link). -/

structure FsEnv where
  decodeURI : String → Option String
  fileURLToPath : String → String
  homedir : String
  cwd : String
  isFile : String → Bool
  readFile : String → Option (List Nat)
  mimeLookup : String → Option String

/-- The WHATWG URL scheme at the front of a string: a letter followed by
letters, digits, `+`, `-` or `.`, terminated by `:`; `new URL` lowercases
it.  `new URL(candidate)` succeeds for every non-special scheme and, when
it throws for a special scheme (e.g. a missing host), the source's
follow-up letter-scheme regex classifies the candidate identically, so
scheme presence is the faithful success criterion for this code path. -/
def schemeOf (s : List Char) : Option (List Char) :=
  match s with
  | [] => none
  | c :: t =>
    if c.isAlpha then
      let run := t.takeWhile (fun d => d.isAlpha || d.isDigit || d = '+' ||
        d = '-' || d = '.')
      match t.drop run.length with
      | ':' :: _ => some (toLowerList (c :: run))
      | _ => none
    else none

/-- The source's follow-up test `/^[a-zA-Z]+:/`. -/
def lettersColon (s : List Char) : Bool :=
  let run := s.takeWhile (fun d => d.isAlpha)
  decide (run ≠ []) && decide ((s.drop run.length).head? = some ':')

/-- `href.replace(/[#?].*$/, '')`: drop everything from the first `#` or
`?`. -/
def stripFragmentQuery (s : List Char) : List Char :=
  s.takeWhile (fun c => ¬ (c = '#' ∨ c = '?'))

/-- The candidate string after fragment/query stripping and `decodeURI`
(decode errors ignored). -/
def resolveCandidate (env : FsEnv) (href : String) : List Char :=
  let c0 := stripFragmentQuery href.data
  match env.decodeURI ⟨c0⟩ with
  | some d => d.data
  | none => c0

structure LocalResolution where
  path : String
  sourceURL : String
deriving DecidableEq

def isAbsolutePath (p : List Char) : Bool := decide (p.head? = some '/')

/-- `pathToFileURL(p).toString()` (percent-encoding of special characters
not modelled). -/
def pathToFileURLStr (p : String) : String := "file://" ++ p

/-- `path.basename`: the last `/`-separated component. -/
def basename (p : String) : String :=
  ⟨(p.data.reverse.takeWhile (fun c => c ≠ '/')).reverse⟩

/-- `resolveLocalPath` (`src/index.ts:1923-1968`): strip fragment/query,
`decodeURI`, classify by URL scheme (`file:` resolved via
`fileURLToPath`, any other scheme rejected), reject letter-scheme
prefixes, expand `~/`, make absolute against the working directory, and
require an existing regular file.  `path.join`/`path.resolve` are
modelled as separator concatenation (component normalization omitted). -/
def resolveLocalPath (env : FsEnv) (href : String) : Option LocalResolution :=
  let c1 := resolveCandidate env href
  match schemeOf c1 with
  | some sch =>
      if sch = "file".data then
        some ⟨env.fileURLToPath ⟨c1⟩, ⟨c1⟩⟩
      else none
  | none =>
      if lettersColon c1 then none
      else
        let c2 := if listStartsWith "~/".data c1 then
            env.homedir.data ++ '/' :: c1.drop 2
          else c1
        let abs := if isAbsolutePath c2 then c2 else
          env.cwd.data ++ '/' :: c2
        if env.isFile ⟨abs⟩ then
          some ⟨⟨abs⟩, pathToFileURLStr ⟨abs⟩⟩
        else none

/-- The anchored case-insensitive match
`/^evernote-resource:([a-f0-9]{32})$/i`; the returned digest is already
lowercased (the source lowercases the captured group immediately). -/
def isHexDigitCI (c : Char) : Bool :=
  c.isDigit || ('a' ≤ c ∧ c ≤ 'f') || ('A' ≤ c ∧ c ≤ 'F')

def matchResourceUrl (url : List Char) : Option (List Char) :=
  let p := url.take 18
  let rest := url.drop 18
  if toLowerList p = "evernote-resource:".data ∧ rest.length = 32 ∧
      rest.all isHexDigitCI then
    some (toLowerList rest)
  else none

/-- `fallbackLink` (`src/index.ts:1916-1921`). -/
def fallbackLink (url label : String) (title : Option String) : String :=
  let text := escapeHtml (if label = "" then url else label)
  let titleAttr := match title with
    | some t => if t = "" then "" else " title=\"" ++ escapeAttribute t ++ "\""
    | none => ""
  "<a href=\"" ++ escapeAttribute url ++ "\"" ++ titleAttr ++ ">" ++ text ++
    "</a>"

/-- ` alt="..."`/` title="..."` attribute fragments used by both
`en-media` emissions in `renderImage`. -/
def altAttrOf (text : String) : String :=
  if text = "" then "" else " alt=\"" ++ escapeAttribute text ++ "\""

def titleAttrOf (title : Option String) : String :=
  match title with
  | some t => if t = "" then "" else " title=\"" ++ escapeAttribute t ++ "\""
  | none => ""

/-- `renderImage` (`src/index.ts:1832-1898`): resolve an image target to
an `en-media` element (registering the attachment) or degrade to a plain
hyperlink; the registry is threaded explicitly in place of the mutated
arrays. -/
def renderImage (env : FsEnv) (href : Option String) (title : Option String)
    (text : String) (existingMap : List (String × MarkdownExistingResource))
    (reg : AttachmentRegistry) : String × AttachmentRegistry :=
  let url := jsTrimStr (href.getD "")
  let altText := if text = "" then url else text
  if url = "" then (escapeHtml text, reg)
  else
    match matchResourceUrl url.data with
    | some hashLower =>
        let hashHex : String := ⟨hashLower⟩
        match mapGet existingMap hashHex with
        | none => (fallbackLink url altText title, reg)
        | some existing =>
            let step := registerAttachment
              { hashHex := hashHex, hash := hexToBytes hashLower,
                mimeType := jsOrStr existing.mimeType
                  "application/octet-stream",
                filename := existing.filename, sourcePath := none,
                sourceURL := existing.sourceURL, data := none,
                resource := existing.resource, isNew := false } reg
            ("<en-media type=\"" ++ step.1.mimeType ++ "\" hash=\"" ++
                hashHex ++ "\"" ++ altAttrOf text ++ titleAttrOf title ++
                " />",
              step.2)
    | none =>
        match resolveLocalPath env url with
        | some loc =>
            match env.readFile loc.path with
            | some bytes =>
                let hash := computeHash bytes
                let step := registerAttachment
                  { hashHex := bytesToHexStr hash, hash := hash,
                    mimeType := jsOrStr (env.mimeLookup loc.path)
                      "application/octet-stream",
                    filename := some (basename loc.path),
                    sourcePath := some loc.path,
                    sourceURL := some loc.sourceURL, data := some bytes,
                    resource := none, isNew := true } reg
                ("<en-media type=\"" ++ step.1.mimeType ++ "\" hash=\"" ++
                    step.1.hashHex ++ "\"" ++ altAttrOf text ++
                    titleAttrOf title ++ " />",
                  step.2)
            | none => (fallbackLink url altText title, reg)
        | none => (fallbackLink url altText title, reg)

/-! ## Sanitizer configuration and filtering (`src/index.ts:1735-1749`,
applied at `src/index.ts:1777-1782`)

The allow-lists are the repository's exact configuration.  The filtering
semantics of the `sanitize-html` call (default `disallowedTagsMode:
'discard'`) is modelled over a token stream: allowed elements keep only
their allowed attributes, disallowed elements are removed (not escaped)
while their children are kept, except for the library's non-text tags
whose content is dropped wholesale. -/

def allowedTags : List String :=
  ["a", "abbr", "acronym", "b", "blockquote", "br", "code", "dd", "div",
   "dl", "dt", "em", "font", "h1", "h2", "h3", "h4", "h5", "h6", "hr", "i",
   "li", "ol", "p", "pre", "s", "small", "span", "strong", "sub", "sup",
   "table", "tbody", "td", "tfoot", "th", "thead", "tr", "u", "ul",
   "en-todo", "en-media"]

def allowedAttributes (tag : String) : List String :=
  if tag = "a" then ["href", "title"]
  else if tag = "div" then ["align"]
  else if tag = "td" then ["colspan", "rowspan", "align"]
  else if tag = "th" then ["colspan", "rowspan", "align"]
  else if tag = "en-todo" then ["checked"]
  else if tag = "en-media" then
    ["type", "hash", "width", "height", "style", "alt", "title"]
  else []

/-- `sanitize-html`'s default `nonTextTags`: disallowed tags whose text
content is dropped as well. -/
def nonTextTags : List String := ["script", "style", "textarea", "option"]

inductive HtmlToken where
  | text (s : String)
  | tagOpen (name : String) (attrs : List (String × String))
  | tagClose (name : String)
deriving DecidableEq

/-- Token-stream filtering of the `sanitizeHtml` call: the first
argument records a non-text tag whose content is currently being
dropped. -/
def sanitizeAux : Option String → List HtmlToken → List HtmlToken
  | _, [] => []
  | some t, tok :: rest =>
      if tok = HtmlToken.tagClose t then sanitizeAux none rest
      else sanitizeAux (some t) rest
  | none, HtmlToken.text s :: rest => HtmlToken.text s :: sanitizeAux none rest
  | none, HtmlToken.tagOpen n a :: rest =>
      if n ∈ allowedTags then
        HtmlToken.tagOpen n (a.filter (fun p => p.1 ∈ allowedAttributes n)) ::
          sanitizeAux none rest
      else if n ∈ nonTextTags then sanitizeAux (some n) rest
      else sanitizeAux none rest
  | none, HtmlToken.tagClose n :: rest =>
      if n ∈ allowedTags then HtmlToken.tagClose n :: sanitizeAux none rest
      else sanitizeAux none rest

def sanitizeTokens (toks : List HtmlToken) : List HtmlToken :=
  sanitizeAux none toks

/-! ## Theorems

Supporting lemmas first, then the claim theorems with their witnesses
and counterexamples. -/

theorem listStartsWith_iff (p s : List Char) :
    listStartsWith p s = true ↔ p <+: s := by
  induction p generalizing s with
  | nil => simp [listStartsWith]
  | cons a p' ih =>
    cases s with
    | nil => simp [listStartsWith]
    | cons b s' =>
      simp only [listStartsWith, Bool.and_eq_true, decide_eq_true_eq,
        List.cons_prefix_cons]
      exact and_congr Iff.rfl (ih s')

theorem listStartsWith_length_le {p s : List Char}
    (h : listStartsWith p s = true) : p.length ≤ s.length :=
  ((listStartsWith_iff p s).1 h).length_le

theorem listStartsWith_append_drop {p s : List Char}
    (h : listStartsWith p s = true) : s = p ++ s.drop p.length := by
  obtain ⟨t, ht⟩ := (listStartsWith_iff p s).1 h
  subst ht
  simp

theorem countOccF_fuel (find : List Char) :
    ∀ (fuel₁ fuel₂ : Nat) (s : List Char),
      s.length ≤ fuel₁ → s.length ≤ fuel₂ →
      countOccF find fuel₁ s = countOccF find fuel₂ s := by
  intro fuel₁
  induction fuel₁ with
  | zero =>
    intro fuel₂ s h1 h2
    have hs : s = [] := List.length_eq_zero.1 (by omega)
    subst hs
    cases fuel₂ <;> rfl
  | succ f ih =>
    intro fuel₂ s h1 h2
    cases s with
    | nil => cases fuel₂ <;> rfl
    | cons c t =>
      cases fuel₂ with
      | zero => simp at h2
      | succ f₂ =>
        rw [countOccF, countOccF]
        by_cases hc : find ≠ [] ∧ listStartsWith find (c :: t) = true
        · rw [if_pos hc, if_pos hc]
          have hfind : 0 < find.length := List.length_pos.2 hc.1
          have hlen : ((c :: t).drop find.length).length ≤ f := by
            simp only [List.length_drop, List.length_cons]
            simp only [List.length_cons] at h1
            omega
          have hlen₂ : ((c :: t).drop find.length).length ≤ f₂ := by
            simp only [List.length_drop, List.length_cons]
            simp only [List.length_cons] at h2
            omega
          rw [ih f₂ _ hlen hlen₂]
        · rw [if_neg hc, if_neg hc]
          have hlen : t.length ≤ f := by
            simp only [List.length_cons] at h1
            omega
          have hlen₂ : t.length ≤ f₂ := by
            simp only [List.length_cons] at h2
            omega
          exact ih f₂ t hlen hlen₂

theorem countOccAux_nil (find : List Char) : countOccAux find [] = 0 := rfl

theorem countOccAux_cons_pos {find : List Char} {c : Char} {t : List Char}
    (h : find ≠ [] ∧ listStartsWith find (c :: t) = true) :
    countOccAux find (c :: t) =
      1 + countOccAux find ((c :: t).drop find.length) := by
  have hfind : 0 < find.length := List.length_pos.2 h.1
  rw [countOccAux, List.length_cons, countOccF, if_pos h]
  rw [countOccAux]
  congr 1
  apply countOccF_fuel
  · simp only [List.length_drop, List.length_cons]
    omega
  · exact le_refl _

theorem countOccAux_cons_neg {find : List Char} {c : Char} {t : List Char}
    (h : ¬(find ≠ [] ∧ listStartsWith find (c :: t) = true)) :
    countOccAux find (c :: t) = countOccAux find t := by
  rw [countOccAux, List.length_cons, countOccF, if_neg h, countOccAux]

theorem jsSplitF_fuel (sep : List Char) :
    ∀ (fuel₁ fuel₂ : Nat) (acc s : List Char),
      s.length ≤ fuel₁ → s.length ≤ fuel₂ →
      jsSplitF sep fuel₁ acc s = jsSplitF sep fuel₂ acc s := by
  intro fuel₁
  induction fuel₁ with
  | zero =>
    intro fuel₂ acc s h1 h2
    have hs : s = [] := List.length_eq_zero.1 (by omega)
    subst hs
    cases fuel₂ <;> rfl
  | succ f ih =>
    intro fuel₂ acc s h1 h2
    cases s with
    | nil => cases fuel₂ <;> rfl
    | cons c t =>
      cases fuel₂ with
      | zero => simp at h2
      | succ f₂ =>
        rw [jsSplitF, jsSplitF]
        by_cases hc : sep ≠ [] ∧ listStartsWith sep (c :: t) = true
        · rw [if_pos hc, if_pos hc]
          have hsep : 0 < sep.length := List.length_pos.2 hc.1
          have hlen : ((c :: t).drop sep.length).length ≤ f := by
            simp only [List.length_drop, List.length_cons]
            simp only [List.length_cons] at h1
            omega
          have hlen₂ : ((c :: t).drop sep.length).length ≤ f₂ := by
            simp only [List.length_drop, List.length_cons]
            simp only [List.length_cons] at h2
            omega
          rw [ih f₂ _ _ hlen hlen₂]
        · rw [if_neg hc, if_neg hc]
          have hlen : t.length ≤ f := by
            simp only [List.length_cons] at h1
            omega
          have hlen₂ : t.length ≤ f₂ := by
            simp only [List.length_cons] at h2
            omega
          exact ih f₂ (acc ++ [c]) t hlen hlen₂

theorem jsSplitAux_nil (sep acc : List Char) : jsSplitAux sep acc [] = [acc] :=
  rfl

theorem jsSplitAux_cons_pos {sep : List Char} {c : Char} {t : List Char}
    (acc : List Char)
    (h : sep ≠ [] ∧ listStartsWith sep (c :: t) = true) :
    jsSplitAux sep acc (c :: t) =
      acc :: jsSplitAux sep [] ((c :: t).drop sep.length) := by
  have hsep : 0 < sep.length := List.length_pos.2 h.1
  rw [jsSplitAux, List.length_cons, jsSplitF, if_pos h, jsSplitAux]
  congr 1
  apply jsSplitF_fuel
  · simp only [List.length_drop, List.length_cons]
    omega
  · exact le_refl _

theorem jsSplitAux_cons_neg {sep : List Char} {c : Char} {t : List Char}
    (acc : List Char)
    (h : ¬(sep ≠ [] ∧ listStartsWith sep (c :: t) = true)) :
    jsSplitAux sep acc (c :: t) = jsSplitAux sep (acc ++ [c]) t := by
  rw [jsSplitAux, List.length_cons, jsSplitF, if_neg h, jsSplitAux]

/-- Strong induction on the length of a list. -/
theorem length_induction {α : Type} (P : List α → Prop)
    (ih : ∀ s : List α, (∀ t : List α, t.length < s.length → P t) → P s) :
    ∀ s, P s := by
  have key : ∀ (n : Nat) (s : List α), s.length ≤ n → P s := by
    intro n
    induction n with
    | zero =>
      intro s hs
      exact ih s (fun t ht => absurd (by omega : t.length < 0) (by omega))
    | succ n ihn =>
      intro s hs
      exact ih s (fun t ht => ihn t (by omega))
  exact fun s => key s.length s (le_refl _)

/-- `jsSplitAux` never returns an empty list of pieces. -/
theorem jsSplitAux_ne_nil (sep : List Char) :
    ∀ s acc, jsSplitAux sep acc s ≠ [] := by
  apply length_induction (fun s => ∀ acc, jsSplitAux sep acc s ≠ [])
  intro s ih acc
  cases s with
  | nil => simp [jsSplitAux_nil]
  | cons c t =>
    by_cases h : sep ≠ [] ∧ listStartsWith sep (c :: t) = true
    · rw [jsSplitAux_cons_pos acc h]
      simp
    · rw [jsSplitAux_cons_neg acc h]
      exact ih t (by simp) (acc ++ [c])

/-- The number of pieces produced by `split` is one more than the number
of matches counted by the escaped-literal global regex: the two distinct
mechanisms the Patch Engine uses for counting (`match`) and replacing
(`split`/`join`) agree. -/
theorem jsSplitAux_length (sep : List Char) :
    ∀ s acc, (jsSplitAux sep acc s).length = countOccAux sep s + 1 := by
  apply length_induction
    (fun s => ∀ acc, (jsSplitAux sep acc s).length = countOccAux sep s + 1)
  intro s ih acc
  cases s with
  | nil => simp [jsSplitAux_nil, countOccAux_nil]
  | cons c t =>
    by_cases h : sep ≠ [] ∧ listStartsWith sep (c :: t) = true
    · have hsep : 0 < sep.length := List.length_pos.2 h.1
      rw [jsSplitAux_cons_pos acc h, countOccAux_cons_pos h]
      have hdrop : ((c :: t).drop sep.length).length < (c :: t).length := by
        simp only [List.length_drop, List.length_cons]
        omega
      simp only [List.length_cons]
      rw [ih _ hdrop []]
      omega
    · rw [jsSplitAux_cons_neg acc h, countOccAux_cons_neg h]
      exact ih t (by simp) (acc ++ [c])

theorem jsSplit_length (s find : List Char) (h : find ≠ []) :
    (jsSplit s find).length = jsMatchCountLiteral s find + 1 := by
  rw [jsSplit, if_neg h, jsMatchCountLiteral, if_neg h]
  exact jsSplitAux_length find s []

/-- Joining the pieces of `split` back with the separator itself
reconstructs the original string: `split` cuts exactly at the
non-overlapping matches of `sep` and nowhere else. -/
theorem jsJoin_jsSplitAux (sep : List Char) :
    ∀ s acc, jsJoin sep (jsSplitAux sep acc s) = acc ++ s := by
  apply length_induction
    (fun s => ∀ acc, jsJoin sep (jsSplitAux sep acc s) = acc ++ s)
  intro s ih acc
  cases s with
  | nil => simp [jsSplitAux_nil, jsJoin]
  | cons c t =>
    by_cases h : sep ≠ [] ∧ listStartsWith sep (c :: t) = true
    · have hsep : 0 < sep.length := List.length_pos.2 h.1
      rw [jsSplitAux_cons_pos acc h]
      have hdrop : ((c :: t).drop sep.length).length < (c :: t).length := by
        simp only [List.length_drop, List.length_cons]
        omega
      obtain ⟨x, rest, hx⟩ := List.exists_cons_of_ne_nil
        (jsSplitAux_ne_nil sep ((c :: t).drop sep.length) [])
      have hjoin : jsJoin sep (acc :: jsSplitAux sep [] ((c :: t).drop sep.length))
          = acc ++ sep ++ jsJoin sep (jsSplitAux sep [] ((c :: t).drop sep.length)) := by
        rw [hx]
        rfl
      rw [hjoin, ih _ hdrop [], List.nil_append, List.append_assoc]
      conv_rhs => rw [listStartsWith_append_drop h.2]
    · rw [jsSplitAux_cons_neg acc h, ih t (by simp) (acc ++ [c])]
      simp

theorem jsJoin_jsSplit (s find : List Char) (h : find ≠ []) :
    jsJoin find (jsSplit s find) = s := by
  rw [jsSplit, if_neg h]
  exact jsJoin_jsSplitAux find s []

theorem firstIndexAux_spec (find : List Char) :
    ∀ (s : List Char) (i j : Nat), firstIndexAux find s i = some j →
      i ≤ j ∧ substrAt find s (j - i) ∧ ∀ k < j - i, ¬ substrAt find s k := by
  intro s
  induction s with
  | nil =>
    intro i j h
    simp only [firstIndexAux] at h
    by_cases hs : listStartsWith find [] = true
    · rw [if_pos hs] at h
      cases h
      refine ⟨le_refl _, ?_, ?_⟩
      · simpa [substrAt] using hs
      · omega
    · rw [if_neg hs] at h
      cases h
  | cons c t ih =>
    intro i j h
    simp only [firstIndexAux] at h
    by_cases hs : listStartsWith find (c :: t) = true
    · rw [if_pos hs] at h
      cases h
      refine ⟨le_refl _, ?_, ?_⟩
      · simpa [substrAt] using hs
      · omega
    · rw [if_neg hs] at h
      obtain ⟨h1, h2, h3⟩ := ih (i + 1) j h
      refine ⟨by omega, ?_, ?_⟩
      · have heq : j - i = (j - (i + 1)) + 1 := by omega
        rw [heq]
        simpa [substrAt] using h2
      · intro k hk
        match k with
        | 0 => simpa [substrAt] using hs
        | k' + 1 =>
          have hk' : k' < j - (i + 1) := by omega
          have := h3 k' hk'
          simpa [substrAt] using this

/-- When the match count is positive the scan for the first occurrence
succeeds. -/
theorem firstIndexAux_isSome_of_countOcc (find : List Char) :
    ∀ (s : List Char) (i : Nat), countOccAux find s ≠ 0 →
      (firstIndexAux find s i).isSome := by
  intro s
  induction s with
  | nil =>
    intro i h
    exact absurd (countOccAux_nil find) h
  | cons c t ih =>
    intro i h
    simp only [firstIndexAux]
    by_cases hs : listStartsWith find (c :: t) = true
    · rw [if_pos hs]
      rfl
    · rw [if_neg hs]
      have h' : ¬(find ≠ [] ∧ listStartsWith find (c :: t) = true) := by
        intro hc
        exact hs hc.2
      rw [countOccAux_cons_neg h'] at h
      exact ih (i + 1) h

theorem firstIndex_isSome_of_matchCount {s find : List Char}
    (h : jsMatchCountLiteral s find ≠ 0) : (firstIndex? s find).isSome := by
  rw [jsMatchCountLiteral] at h
  by_cases hf : find = []
  · subst hf
    cases s with
    | nil => simp [firstIndex?, firstIndexAux, listStartsWith]
    | cons c t => simp [firstIndex?, firstIndexAux, listStartsWith]
  · rw [if_neg hf] at h
    exact firstIndexAux_isSome_of_countOcc find s 0 h

theorem applyReplacements_length (markdown : String)
    (rs : List NoteReplacement) :
    (applyReplacements markdown rs).2.length = rs.length := by
  induction rs generalizing markdown with
  | nil => rfl
  | cons r rest ih =>
    simp [applyReplacements, ih]

theorem string_data_ne_nil {s : String} (h : s ≠ "") : s.data ≠ [] := by
  intro hd
  apply h
  cases s with
  | mk l =>
    cases hd
    rfl

theorem jsJoin_map_singleton_head (sep : List Char) (c : Char)
    (md : List Char) :
    (jsJoin sep ((c :: md).map (fun x => [x]))).head? = some c := by
  cases md with
  | nil => rfl
  | cons d rest => rfl

theorem jsJoin_map_singleton_getLast (sep : List Char) :
    ∀ (md : List Char) (c : Char),
      (jsJoin sep ((c :: md).map (fun x => [x]))).getLast? =
        (c :: md).getLast? := by
  intro md
  induction md with
  | nil =>
    intro c
    rfl
  | cons d rest ih =>
    intro c
    have hstep : jsJoin sep ((c :: d :: rest).map (fun x => [x])) =
        ([c] ++ sep) ++ jsJoin sep ((d :: rest).map (fun x => [x])) := by
      simp [jsJoin, List.append_assoc]
    have hne : jsJoin sep ((d :: rest).map (fun x => [x])) ≠ [] := by
      have hh := jsJoin_map_singleton_head sep d rest
      intro hnil
      rw [hnil] at hh
      simp at hh
    rw [hstep, List.getLast?_append_of_ne_nil _ hne, ih d,
      List.getLast?_cons_cons]

theorem jsJoin_map_singleton_length (sep : List Char) :
    ∀ (md : List Char) (c : Char),
      (jsJoin sep ((c :: md).map (fun x => [x]))).length =
        (md.length + 1) + md.length * sep.length := by
  intro md
  induction md with
  | nil =>
    intro c
    simp [jsJoin]
  | cons d rest ih =>
    intro c
    have hstep : jsJoin sep ((c :: d :: rest).map (fun x => [x])) =
        [c] ++ sep ++ jsJoin sep ((d :: rest).map (fun x => [x])) := rfl
    rw [hstep]
    simp only [List.length_append, ih d, List.length_cons,
      List.length_singleton, List.length_nil]
    ring

/-- C4: when no replacement matched anything, or the replaced markup
trims to the empty string, `patchNoteContent` returns a structured
failure (`success: false`, one `{find, occurrences, replaced}` record per
replacement, a warning), throws nothing, and never reaches the
`noteStore.updateNote` call, leaving the note unchanged. -/
theorem patchEngine_abort_no_mutation (markdown : String)
    (rs : List NoteReplacement)
    (h : ((applyReplacements markdown rs).2.map (fun c => c.replaced)).sum = 0 ∨
      jsTrimStr (applyReplacements markdown rs).1 = "") :
    (patchEngine markdown rs).success = false ∧
    (patchEngine markdown rs).updatePerformed = false ∧
    (patchEngine markdown rs).newMarkdown = none ∧
    (patchEngine markdown rs).warning.isSome = true ∧
    (patchEngine markdown rs).changes = (applyReplacements markdown rs).2 ∧
    (patchEngine markdown rs).changes.length = rs.length := by
  by_cases h0 :
      ((applyReplacements markdown rs).2.map (fun c => c.replaced)).sum = 0
  · simp [patchEngine, h0, applyReplacements_length]
  · rcases h with h | h
    · exact absurd h h0
    · simp [patchEngine, h0, h, applyReplacements_length]

theorem patchEngine_abort_no_mutation_witness :
    (((applyReplacements "abc" [⟨"x", "y", none⟩]).2.map
        (fun c => c.replaced)).sum = 0 ∨
      jsTrimStr (applyReplacements "abc" [⟨"x", "y", none⟩]).1 = "") ∧
    ((patchEngine "abc" [⟨"x", "y", none⟩]).success = false ∧
      (patchEngine "abc" [⟨"x", "y", none⟩]).updatePerformed = false ∧
      (patchEngine "abc" [⟨"x", "y", none⟩]).newMarkdown = none ∧
      (patchEngine "abc" [⟨"x", "y", none⟩]).warning.isSome = true ∧
      (patchEngine "abc" [⟨"x", "y", none⟩]).changes =
        (applyReplacements "abc" [⟨"x", "y", none⟩]).2 ∧
      (patchEngine "abc" [⟨"x", "y", none⟩]).changes.length =
        [(⟨"x", "y", none⟩ : NoteReplacement)].length) :=
  ⟨Or.inl (by decide),
    patchEngine_abort_no_mutation "abc" [⟨"x", "y", none⟩]
      (Or.inl (by decide))⟩

/-- C3 counterexample: on the `replaceAll: false` path the replacement
string is NOT inserted literally — `String.prototype.replace` expands
`$`-patterns, so replacing `"TODO:"` by `"$&$&"` duplicates the match
instead of inserting the literal text `"$&$&"`. -/
theorem patch_replace_first_not_literal :
    applyReplacement "TODO: x" ⟨"TODO:", "$&$&", some false⟩ =
      ("TODO:TODO: x", ⟨"TODO:", 1, 1⟩) ∧
    ("TODO:TODO: x" : String) ≠ "$&$& x" := by
  decide

/-- C3 (amended): per-replacement semantics of the Patch Engine loop:
the reported `occurrences` is the literal non-overlapping match count;
with zero occurrences nothing changes; with `replaceAll` all counted
occurrences are replaced with the literal replacement
(`split`/`join`); with `replaceAll: false` and at least one occurrence
exactly the first (leftmost) occurrence is replaced, with the
replacement string interpreted under ECMA-262 `GetSubstitution`
(`$$`, `$&`, ``$` ``, `$'`), and `replaced = 1`; replacements apply
sequentially, each seeing the previous result. -/
theorem patch_replacement_loop_semantics (markdown : String)
    (r : NoteReplacement) :
    (applyReplacement markdown r).2.find = r.find ∧
    (applyReplacement markdown r).2.occurrences =
      jsMatchCount markdown r.find ∧
    (jsMatchCount markdown r.find = 0 →
      applyReplacement markdown r = (markdown, ⟨r.find, 0, 0⟩)) ∧
    (0 < jsMatchCount markdown r.find → r.replaceAll.getD true = true →
      applyReplacement markdown r =
        (jsSplitJoin markdown r.find r.replace,
          ⟨r.find, jsMatchCount markdown r.find,
            jsMatchCount markdown r.find⟩)) ∧
    (0 < jsMatchCount markdown r.find → r.replaceAll.getD true = false →
      (applyReplacement markdown r).2.replaced = 1 ∧
      ∃ i, firstIndex? markdown.data r.find.data = some i ∧
        substrAt r.find.data markdown.data i ∧
        (∀ j, j < i → ¬ substrAt r.find.data markdown.data j) ∧
        (applyReplacement markdown r).1.data =
          markdown.data.take i ++
            getSubstitution r.find.data (markdown.data.take i)
              (markdown.data.drop (i + r.find.data.length)) r.replace.data ++
            markdown.data.drop (i + r.find.data.length)) ∧
    (∀ rs, applyReplacements markdown (r :: rs) =
      ((applyReplacements (applyReplacement markdown r).1 rs).1,
        (applyReplacement markdown r).2 ::
          (applyReplacements (applyReplacement markdown r).1 rs).2)) := by
  refine ⟨?_, ?_, ?_, ?_, ?_, ?_⟩
  · rw [applyReplacement]
    split
    · split <;> rfl
    · rfl
  · rw [applyReplacement]
    split
    · split <;> rfl
    · rfl
  · intro h0
    rw [applyReplacement]
    rw [if_neg (by omega)]
    rw [h0]
  · intro hpos hall
    rw [applyReplacement, if_pos hpos, if_pos hall]
  · intro hpos hall
    rw [applyReplacement, if_pos hpos, hall]
    refine ⟨rfl, ?_⟩
    have hsome : (firstIndex? markdown.data r.find.data).isSome := by
      apply firstIndex_isSome_of_matchCount
      intro hz
      rw [jsMatchCount] at hpos
      omega
    obtain ⟨i, hi⟩ := Option.isSome_iff_exists.1 hsome
    obtain ⟨_, hat, hmin⟩ := firstIndexAux_spec r.find.data markdown.data 0 i hi
    refine ⟨i, hi, ?_, ?_, ?_⟩
    · simpa using hat
    · intro j hj
      have := hmin j (by omega)
      simpa using this
    · show (jsReplaceFirstStr markdown r.find r.replace).data = _
      rw [jsReplaceFirstStr]
      show jsReplaceFirst markdown.data r.find.data r.replace.data = _
      rw [jsReplaceFirst, hi]
  · intro rs
    rfl

theorem patch_replacement_loop_semantics_witness :
    (applyReplacement "aab" ⟨"a", "z", some false⟩).2.replaced = 1 ∧
    ∃ i, firstIndex? "aab".data "a".data = some i ∧
      substrAt "a".data "aab".data i ∧
      (∀ j, j < i → ¬ substrAt "a".data "aab".data j) ∧
      (applyReplacement "aab" ⟨"a", "z", some false⟩).1.data =
        "aab".data.take i ++
          getSubstitution "a".data ("aab".data.take i)
            ("aab".data.drop (i + "a".data.length)) "z".data ++
          "aab".data.drop (i + "a".data.length) :=
  (patch_replacement_loop_semantics "aab" ⟨"a", "z", some false⟩).2.2.2.2.1
    (by decide) (by decide)

/-- C8: the occurrence count is the number of non-overlapping
left-to-right matches of the escaped-literal pattern (`"aa"` in `"aaa"`
counts 1, and a metacharacter such as `.` does not act as a wildcard),
and the `replaceAll` path (`split`/`join`) cuts exactly at those
matches: the number of pieces is the count plus one, and joining the
pieces back with the pattern itself reconstructs the input. -/
theorem patch_occurrences_nonoverlapping :
    jsMatchCount "aaa" "aa" = 1 ∧
    jsMatchCount "abc" "a.c" = 0 ∧
    (∀ s find : String, find ≠ "" →
      (jsSplit s.data find.data).length = jsMatchCount s find + 1) ∧
    (∀ s find : String, find ≠ "" →
      jsJoin find.data (jsSplit s.data find.data) = s.data) := by
  refine ⟨by decide, by decide, ?_, ?_⟩
  · intro s find h
    exact jsSplit_length s.data find.data (string_data_ne_nil h)
  · intro s find h
    exact jsJoin_jsSplit s.data find.data (string_data_ne_nil h)

theorem patch_occurrences_nonoverlapping_witness :
    (jsSplit "aaa".data "aa".data).length = jsMatchCount "aaa" "aa" + 1 ∧
    jsJoin "aa".data (jsSplit "aaa".data "aa".data) = "aaa".data :=
  ⟨patch_occurrences_nonoverlapping.2.2.1 "aaa" "aa" (by decide),
    patch_occurrences_nonoverlapping.2.2.2 "aaa" "aa" (by decide)⟩

/-- C10 counterexample: with an empty `find` and `replaceAll`, the
replacement is inserted between adjacent characters only — not at the
two ends as the claim states: patching `"ab"` with `find: ""`,
`replace: "-"` yields `"a-b"`, not `"-a-b-"`. -/
theorem patch_empty_find_counterexample :
    applyReplacement "ab" ⟨"", "-", some true⟩ = ("a-b", ⟨"", 3, 3⟩) ∧
    ("a-b" : String) ≠ "-a-b-" := by
  decide

/-- C10 (amended): for a non-empty markup of length `n` and an empty
`find`, the engine reports `occurrences = n + 1` and `replaced = n + 1`
(so the call never aborts as no-match), but with `replaceAll` the
replacement is inserted only between adjacent characters (`n - 1`
insertions, first and last characters preserved): the result is the
`split('')`/`join` of single characters, of length
`n + (n - 1) * |replace|`. -/
theorem patch_empty_find_semantics (markdown replaceStr : String)
    (h : markdown ≠ "") :
    (applyReplacement markdown ⟨"", replaceStr, some true⟩).2.occurrences =
      markdown.length + 1 ∧
    (applyReplacement markdown ⟨"", replaceStr, some true⟩).2.replaced =
      markdown.length + 1 ∧
    (applyReplacement markdown ⟨"", replaceStr, some true⟩).1.data =
      jsJoin replaceStr.data (markdown.data.map (fun c => [c])) ∧
    (applyReplacement markdown ⟨"", replaceStr, some true⟩).1.data.head? =
      markdown.data.head? ∧
    (applyReplacement markdown ⟨"", replaceStr, some true⟩).1.data.getLast? =
      markdown.data.getLast? ∧
    (applyReplacement markdown ⟨"", replaceStr, some true⟩).1.length =
      markdown.length + (markdown.length - 1) * replaceStr.length ∧
    (patchEngine markdown [⟨"", replaceStr, some true⟩]).warning ≠
      some "No matches found for any replacement patterns" := by
  have hocc : jsMatchCount markdown "" = markdown.data.length + 1 := by
    simp [jsMatchCount, jsMatchCountLiteral]
  have happ : applyReplacement markdown ⟨"", replaceStr, some true⟩ =
      (jsSplitJoin markdown "" replaceStr,
        ⟨"", markdown.data.length + 1, markdown.data.length + 1⟩) := by
    rw [applyReplacement]
    simp only [hocc]
    rw [if_pos (by omega)]
    rfl
  have hdata : (jsSplitJoin markdown "" replaceStr).data =
      jsJoin replaceStr.data (markdown.data.map (fun c => [c])) := by
    show jsSplitJoinReplace markdown.data [] replaceStr.data = _
    rw [jsSplitJoinReplace, jsSplit, if_pos rfl]
  obtain ⟨c, md, hmd⟩ := List.exists_cons_of_ne_nil (string_data_ne_nil h)
  have hlen : markdown.length = markdown.data.length := rfl
  refine ⟨by rw [happ]; rfl, by rw [happ]; rfl, by rw [happ]; exact hdata,
    ?_, ?_, ?_, ?_⟩
  · rw [happ]
    show (jsSplitJoin markdown "" replaceStr).data.head? = _
    rw [hdata, hmd]
    rw [jsJoin_map_singleton_head]
    rfl
  · rw [happ]
    show (jsSplitJoin markdown "" replaceStr).data.getLast? = _
    rw [hdata, hmd]
    exact jsJoin_map_singleton_getLast replaceStr.data md c
  · rw [happ]
    show (jsSplitJoin markdown "" replaceStr).data.length = _
    rw [hdata, hmd]
    rw [jsJoin_map_singleton_length]
    have : markdown.length = md.length + 1 := by
      rw [hlen, hmd]
      rfl
    rw [this]
    simp
  · rw [patchEngine]
    simp only [applyReplacements, happ]
    split
    · rename_i hcond
      simp only [List.map, List.sum_cons, List.sum_nil] at hcond
      omega
    · split
      · intro hcontra
        exact absurd (Option.some.inj hcontra) (by decide)
      · intro hcontra
        exact Option.noConfusion hcontra

set_option maxRecDepth 20000 in
/-- The embedded MD5 agrees with the RFC 1321 test suite on the empty
message and on `"abc"`. -/
theorem computeHash_rfc1321_vectors :
    bytesToHexStr (computeHash []) = "d41d8cd98f00b204e9800998ecf8427e" ∧
    bytesToHexStr (computeHash [97, 98, 99]) =
      "900150983cd24fb0d6963f7d28e17f72" := by
  constructor
  · decide
  · decide

/-- C6: the content digest is a total deterministic function producing a
fixed 16-byte digest (also on the empty buffer); registering two
candidates with equal digests yields exactly one entry — the second
`register` returns the first stored entry unchanged regardless of any
other field of the candidate — and a miss appends at the end, so first
insertion order is preserved. -/
theorem computeHash_registry_identity :
    (∀ B : List Nat, computeHash B = computeHash B ∧
      (computeHash B).length = 16) ∧
    (∀ c₁ c₂ : MarkdownAttachment, c₂.hashHex = c₁.hashHex →
      (registerAttachment c₁ emptyRegistry).2.attachments = [c₁] ∧
      (registerAttachment c₂ (registerAttachment c₁ emptyRegistry).2).1 = c₁ ∧
      (registerAttachment c₂ (registerAttachment c₁ emptyRegistry).2).2 =
        (registerAttachment c₁ emptyRegistry).2) ∧
    (∀ (c : MarkdownAttachment) (reg : AttachmentRegistry),
      mapGet reg.byHash c.hashHex = none →
      (registerAttachment c reg).1 = c ∧
      (registerAttachment c reg).2.attachments = reg.attachments ++ [c]) ∧
    (∀ (c e : MarkdownAttachment) (reg : AttachmentRegistry),
      mapGet reg.byHash c.hashHex = some e →
      registerAttachment c reg = (e, reg)) := by
  refine ⟨?_, ?_, ?_, ?_⟩
  · intro B
    exact ⟨rfl, by simp [computeHash, wordToBytesLE]⟩
  · intro c₁ c₂ h
    have h1 : registerAttachment c₁ emptyRegistry =
        (c₁, ⟨[c₁], [(c₁.hashHex, c₁)]⟩) := by
      simp [registerAttachment, emptyRegistry, mapGet, mapSet, List.find?]
    have h2 : mapGet [(c₁.hashHex, c₁)] c₂.hashHex = some c₁ := by
      simp [mapGet, List.find?, h]
    rw [h1]
    refine ⟨rfl, ?_, ?_⟩ <;> simp [registerAttachment, h2]
  · intro c reg hmiss
    constructor <;> simp [registerAttachment, hmiss]
  · intro c e reg hhit
    simp [registerAttachment, hhit]

theorem computeHash_registry_identity_witness :
    (computeHash [] = computeHash [] ∧ (computeHash []).length = 16) ∧
    ((⟨"ff00", [255, 0], "image/jpeg", some "b.jpg", none, none, none, none,
        true⟩ : MarkdownAttachment).hashHex =
      (⟨"ff00", [255, 0], "image/png", some "a.png", none, none, none, none,
        true⟩ : MarkdownAttachment).hashHex) ∧
    ((registerAttachment
        ⟨"ff00", [255, 0], "image/png", some "a.png", none, none, none, none,
          true⟩ emptyRegistry).2.attachments =
      [⟨"ff00", [255, 0], "image/png", some "a.png", none, none, none, none,
        true⟩] ∧
     (registerAttachment
        ⟨"ff00", [255, 0], "image/jpeg", some "b.jpg", none, none, none, none,
          true⟩
        (registerAttachment
          ⟨"ff00", [255, 0], "image/png", some "a.png", none, none, none,
            none, true⟩ emptyRegistry).2).1 =
      ⟨"ff00", [255, 0], "image/png", some "a.png", none, none, none, none,
        true⟩ ∧
     (registerAttachment
        ⟨"ff00", [255, 0], "image/jpeg", some "b.jpg", none, none, none, none,
          true⟩
        (registerAttachment
          ⟨"ff00", [255, 0], "image/png", some "a.png", none, none, none,
            none, true⟩ emptyRegistry).2).2 =
      (registerAttachment
        ⟨"ff00", [255, 0], "image/png", some "a.png", none, none, none, none,
          true⟩ emptyRegistry).2) :=
  ⟨computeHash_registry_identity.1 [], by decide,
    computeHash_registry_identity.2.1
      ⟨"ff00", [255, 0], "image/png", some "a.png", none, none, none, none,
        true⟩
      ⟨"ff00", [255, 0], "image/jpeg", some "b.jpg", none, none, none, none,
        true⟩
      (by decide)⟩

theorem sanitizeAux_open_allowed :
    ∀ (toks : List HtmlToken) (st : Option String) (n : String)
      (a : List (String × String)),
      HtmlToken.tagOpen n a ∈ sanitizeAux st toks →
      n ∈ allowedTags ∧ ∀ p ∈ a, p.1 ∈ allowedAttributes n := by
  intro toks
  induction toks with
  | nil =>
    intro st n a h
    cases st <;> simp [sanitizeAux] at h
  | cons tok rest ih =>
    intro st n a h
    cases st with
    | some t =>
      rw [sanitizeAux] at h
      by_cases htok : tok = HtmlToken.tagClose t
      · rw [if_pos htok] at h
        exact ih none n a h
      · rw [if_neg htok] at h
        exact ih (some t) n a h
    | none =>
      cases tok with
      | text s =>
        rw [sanitizeAux, List.mem_cons] at h
        rcases h with h | h
        · exact absurd h (by simp)
        · exact ih none n a h
      | tagOpen m b =>
        rw [sanitizeAux] at h
        by_cases hm : m ∈ allowedTags
        · rw [if_pos hm, List.mem_cons] at h
          rcases h with h | h
          · obtain ⟨hn, ha⟩ := HtmlToken.tagOpen.inj h
            subst hn
            subst ha
            refine ⟨hm, ?_⟩
            intro p hp
            exact of_decide_eq_true (List.mem_filter.1 hp).2
          · exact ih none n a h
        · rw [if_neg hm] at h
          by_cases hnt : m ∈ nonTextTags
          · rw [if_pos hnt] at h
            exact ih (some m) n a h
          · rw [if_neg hnt] at h
            exact ih none n a h
      | tagClose m =>
        rw [sanitizeAux] at h
        by_cases hm : m ∈ allowedTags
        · rw [if_pos hm, List.mem_cons] at h
          rcases h with h | h
          · exact absurd h (by simp)
          · exact ih none n a h
        · rw [if_neg hm] at h
          exact ih none n a h

theorem sanitizeAux_close_allowed :
    ∀ (toks : List HtmlToken) (st : Option String) (n : String),
      HtmlToken.tagClose n ∈ sanitizeAux st toks → n ∈ allowedTags := by
  intro toks
  induction toks with
  | nil =>
    intro st n h
    cases st <;> simp [sanitizeAux] at h
  | cons tok rest ih =>
    intro st n h
    cases st with
    | some t =>
      rw [sanitizeAux] at h
      by_cases htok : tok = HtmlToken.tagClose t
      · rw [if_pos htok] at h
        exact ih none n h
      · rw [if_neg htok] at h
        exact ih (some t) n h
    | none =>
      cases tok with
      | text s =>
        rw [sanitizeAux, List.mem_cons] at h
        rcases h with h | h
        · exact absurd h (by simp)
        · exact ih none n h
      | tagOpen m b =>
        rw [sanitizeAux] at h
        by_cases hm : m ∈ allowedTags
        · rw [if_pos hm, List.mem_cons] at h
          rcases h with h | h
          · exact absurd h (by simp)
          · exact ih none n h
        · rw [if_neg hm] at h
          by_cases hnt : m ∈ nonTextTags
          · rw [if_pos hnt] at h
            exact ih (some m) n h
          · rw [if_neg hnt] at h
            exact ih none n h
      | tagClose m =>
        rw [sanitizeAux] at h
        by_cases hm : m ∈ allowedTags
        · rw [if_pos hm, List.mem_cons] at h
          rcases h with h | h
          · cases HtmlToken.tagClose.inj h
            exact hm
          · exact ih none n h
        · rw [if_neg hm] at h
          exact ih none n h

theorem sanitizeAux_text_from_input :
    ∀ (toks : List HtmlToken) (st : Option String) (s : String),
      HtmlToken.text s ∈ sanitizeAux st toks →
      HtmlToken.text s ∈ toks := by
  intro toks
  induction toks with
  | nil =>
    intro st s h
    cases st <;> simp [sanitizeAux] at h
  | cons tok rest ih =>
    intro st s h
    cases st with
    | some t =>
      rw [sanitizeAux] at h
      by_cases htok : tok = HtmlToken.tagClose t
      · rw [if_pos htok] at h
        exact List.mem_cons_of_mem tok (ih none s h)
      · rw [if_neg htok] at h
        exact List.mem_cons_of_mem tok (ih (some t) s h)
    | none =>
      cases tok with
      | text s' =>
        rw [sanitizeAux, List.mem_cons] at h
        rcases h with h | h
        · rw [List.mem_cons]
          exact Or.inl h
        · exact List.mem_cons_of_mem _ (ih none s h)
      | tagOpen m b =>
        rw [sanitizeAux] at h
        by_cases hm : m ∈ allowedTags
        · rw [if_pos hm, List.mem_cons] at h
          rcases h with h | h
          · exact absurd h (by simp)
          · exact List.mem_cons_of_mem _ (ih none s h)
        · rw [if_neg hm] at h
          by_cases hnt : m ∈ nonTextTags
          · rw [if_pos hnt] at h
            exact List.mem_cons_of_mem _ (ih (some m) s h)
          · rw [if_neg hnt] at h
            exact List.mem_cons_of_mem _ (ih none s h)
      | tagClose m =>
        rw [sanitizeAux] at h
        by_cases hm : m ∈ allowedTags
        · rw [if_pos hm, List.mem_cons] at h
          rcases h with h | h
          · exact absurd h (by simp)
          · exact List.mem_cons_of_mem _ (ih none s h)
        · rw [if_neg hm] at h
          exact List.mem_cons_of_mem _ (ih none s h)

/-- C2: every element in the output of the sanitization step that closes
`markdownToENML` belongs to the fixed tag allow-list, every attribute
kept on such an element belongs to that element's attribute allow-list
(elements without an entry keep no attributes), and disallowed markup is
dropped, not escaped: every text token of the output was a text token of
the input. -/
theorem markdownToENML_sanitize_allowlist (toks : List HtmlToken) :
    (∀ n a, HtmlToken.tagOpen n a ∈ sanitizeTokens toks →
      n ∈ allowedTags ∧ ∀ p ∈ a, p.1 ∈ allowedAttributes n) ∧
    (∀ n, HtmlToken.tagClose n ∈ sanitizeTokens toks → n ∈ allowedTags) ∧
    (∀ s, HtmlToken.text s ∈ sanitizeTokens toks →
      HtmlToken.text s ∈ toks) :=
  ⟨fun n a h => sanitizeAux_open_allowed toks none n a h,
    fun n h => sanitizeAux_close_allowed toks none n h,
    fun s h => sanitizeAux_text_from_input toks none s h⟩

theorem markdownToENML_sanitize_allowlist_witness :
    sanitizeTokens
      [HtmlToken.tagOpen "script" [], HtmlToken.text "evil()",
        HtmlToken.tagClose "script",
        HtmlToken.tagOpen "b" [("style", "x"), ("class", "y")],
        HtmlToken.text "hi", HtmlToken.tagClose "b",
        HtmlToken.tagOpen "en-todo" [("checked", "true"), ("onclick", "z")],
        HtmlToken.tagOpen "marquee" [], HtmlToken.text "kept",
        HtmlToken.tagClose "marquee"] =
      [HtmlToken.tagOpen "b" [], HtmlToken.text "hi",
        HtmlToken.tagClose "b",
        HtmlToken.tagOpen "en-todo" [("checked", "true")],
        HtmlToken.text "kept"] ∧
    ("b" ∈ allowedTags ∧
      ∀ p ∈ ([] : List (String × String)), p.1 ∈ allowedAttributes "b") :=
  ⟨by decide,
    (markdownToENML_sanitize_allowlist
      [HtmlToken.tagOpen "script" [], HtmlToken.text "evil()",
        HtmlToken.tagClose "script",
        HtmlToken.tagOpen "b" [("style", "x"), ("class", "y")],
        HtmlToken.text "hi", HtmlToken.tagClose "b",
        HtmlToken.tagOpen "en-todo" [("checked", "true"), ("onclick", "z")],
        HtmlToken.tagOpen "marquee" [], HtmlToken.text "kept",
        HtmlToken.tagClose "marquee"]).1 "b" [] (by decide)⟩

theorem patch_empty_find_semantics_witness :
    ("ab" : String) ≠ "" ∧
    (applyReplacement "ab" ⟨"", "-", some true⟩).2.occurrences =
      ("ab" : String).length + 1 ∧
    (applyReplacement "ab" ⟨"", "-", some true⟩).2.replaced =
      ("ab" : String).length + 1 ∧
    (applyReplacement "ab" ⟨"", "-", some true⟩).1.data =
      jsJoin "-".data ("ab".data.map (fun c => [c])) ∧
    (applyReplacement "ab" ⟨"", "-", some true⟩).1.data.head? =
      "ab".data.head? ∧
    (applyReplacement "ab" ⟨"", "-", some true⟩).1.data.getLast? =
      "ab".data.getLast? ∧
    (applyReplacement "ab" ⟨"", "-", some true⟩).1.length =
      ("ab" : String).length + (("ab" : String).length - 1) *
        ("-" : String).length ∧
    (patchEngine "ab" [⟨"", "-", some true⟩]).warning ≠
      some "No matches found for any replacement patterns" :=
  ⟨by decide, patch_empty_find_semantics "ab" "-" (by decide)⟩

theorem toLowerStr_ne_empty {s : String} (h : s ≠ "") : toLowerStr s ≠ "" := by
  intro hc
  apply h
  have hdata : toLowerList s.data = [] := congrArg String.data hc
  rw [toLowerList] at hdata
  have hnil : s.data = [] := List.map_eq_nil_iff.1 hdata
  cases s with
  | mk l =>
    cases hnil
    rfl

theorem jsOrStr_ne_empty (a : Option String) {b : String} (hb : b ≠ "") :
    jsOrStr a b ≠ "" := by
  cases a with
  | none => exact hb
  | some s =>
    rw [jsOrStr]
    by_cases hs : s = ""
    · rw [if_pos hs]
      exact hb
    · rw [if_neg hs]
      exact hs

theorem mapSet_keys {α : Type} (P : String → Prop) (m : List (String × α))
    (k : String) (v : α) (hm : ∀ p ∈ m, P p.1) (hk : P k) :
    ∀ p ∈ mapSet m k v, P p.1 := by
  intro p hp
  rw [mapSet] at hp
  split at hp
  · obtain ⟨q, hq, hpq⟩ := List.mem_map.1 hp
    by_cases hqk : q.1 == k
    · rw [if_pos hqk] at hpq
      rw [← hpq]
      exact hk
    · rw [if_neg hqk] at hpq
      rw [← hpq]
      exact hm q hq
  · rcases List.mem_append.1 hp with h | h
    · exact hm p h
    · have : p = (k, v) := by simpa using h
      rw [this]
      exact hk

theorem buildMap_keys_ne_empty (rs : List MarkdownExistingResource) :
    ∀ (m : List (String × MarkdownExistingResource)),
      (∀ p ∈ m, p.1 ≠ "") →
      ∀ p ∈ rs.foldl
        (fun m r =>
          if r.hashHex = "" then m else mapSet m (toLowerStr r.hashHex) r) m,
        p.1 ≠ "" := by
  induction rs with
  | nil =>
    intro m hm p hp
    exact hm p hp
  | cons r rest ih =>
    intro m hm p hp
    rw [List.foldl_cons] at hp
    refine ih _ ?_ p hp
    intro q hq
    by_cases hr : r.hashHex = ""
    · rw [if_pos hr] at hq
      exact hm q hq
    · rw [if_neg hr] at hq
      exact mapSet_keys (fun k => k ≠ "") m (toLowerStr r.hashHex) r hm
        (toLowerStr_ne_empty hr) q hq

theorem buildMap_lookup_key_ne_empty (rs : List MarkdownExistingResource)
    (k : String) (v : MarkdownExistingResource)
    (hget : mapGet (buildExistingResourceMap (some rs)) k = some v) :
    k ≠ "" := by
  rw [mapGet] at hget
  obtain ⟨q, hfind⟩ : ∃ q, List.find? (fun p => p.1 == k)
      (buildExistingResourceMap (some rs)) = some q := by
    cases hq : List.find? (fun p => p.1 == k)
        (buildExistingResourceMap (some rs)) with
    | none =>
      rw [hq] at hget
      simp at hget
    | some q => exact ⟨q, rfl⟩
  have hq1 : (q.1 == k) = true := (List.find?_eq_some.mp hfind).1
  have hqm : q ∈ buildExistingResourceMap (some rs) :=
    List.mem_of_find?_eq_some hfind
  have hqne : q.1 ≠ "" := by
    have := buildMap_keys_ne_empty rs [] (by simp) q
    rw [buildExistingResourceMap] at hqm
    exact this hqm
  rw [← eq_of_beq hq1]
  exact hqne

/-- C7 counterexample: the image/hyperlink decision is made on the
element's effective type — the `type` attribute first, the known
attachment's mime type only as a fallback
(`parsed.type || resourceMap.get(hash)?.mimeType || ...`,
`src/index.ts:1809`) — not on the known attachment's mime type as the
claim states: for `<en-media type="application/pdf" hash="H"/>` with `H`
registered as `image/png`, the rewrite emits an `<a>` hyperlink and no
image reference, although the digest matches a known attachment whose
mime type starts with `image/`. -/
theorem enml_enMedia_type_override_counterexample :
    mapGet
      (buildExistingResourceMap
        (some [⟨"abcdef0123456789abcdef0123456789", some "image/png",
          some "photo.png", none, none⟩]))
      (enMediaHash
        "type=\"application/pdf\" hash=\"abcdef0123456789abcdef0123456789\"") =
      some ⟨"abcdef0123456789abcdef0123456789", some "image/png",
        some "photo.png", none, none⟩ ∧
    (⟨"abcdef0123456789abcdef0123456789", some "image/png",
      some "photo.png", none, none⟩ : MarkdownExistingResource).mimeType =
      some "image/png" ∧
    listStartsWith "image/".data ("image/png" : String).data = true ∧
    enMediaReplacement
      (buildExistingResourceMap
        (some [⟨"abcdef0123456789abcdef0123456789", some "image/png",
          some "photo.png", none, none⟩]))
      "type=\"application/pdf\" hash=\"abcdef0123456789abcdef0123456789\"" =
      "<a href=\"evernote-resource:abcdef0123456789abcdef0123456789\" data-evernote-type=\"application/pdf\">photo.png</a>" ∧
    listStartsWith "<img".data
      (enMediaReplacement
        (buildExistingResourceMap
          (some [⟨"abcdef0123456789abcdef0123456789", some "image/png",
            some "photo.png", none, none⟩]))
        "type=\"application/pdf\" hash=\"abcdef0123456789abcdef0123456789\"").data
      = false := by
  decide

/-- C7 (amended): an `en-media` element whose effective type — the
element's `type` attribute when present, else the known attachment's
mime type, else `application/octet-stream` — starts with `image/`
(case-insensitively) and whose (lowercased) digest matches a known
attachment is rewritten to an `<img>` whose `src` uses the
`evernote-resource:<digest>` pseudo-URL with the lowercased digest and
whose alt text is non-empty (the `alt`/`title` attribute, the known
filename or mime type, or the digest itself); an element whose digest
matches nothing still emits an `<img>`/`<a>` reference carrying the
`evernote-resource:` pseudo-URL rather than being dropped. -/
theorem enml_enMedia_image_rewrite
    (resources : List MarkdownExistingResource) (attrs : String)
    (ex : MarkdownExistingResource)
    (hmap : mapGet (buildExistingResourceMap (some resources))
      (enMediaHash attrs) = some ex)
    (himg : listStartsWith "image/".data
      (toLowerStr (enMediaType (buildExistingResourceMap (some resources))
        attrs)).data = true) :
    enMediaReplacement (buildExistingResourceMap (some resources)) attrs =
      "<img src=\"evernote-resource:" ++ enMediaHash attrs ++ "\" alt=\"" ++
        escapeAttribute
          (enMediaAlt (buildExistingResourceMap (some resources)) attrs) ++
        "\" data-evernote-type=\"" ++
        escapeAttribute
          (enMediaType (buildExistingResourceMap (some resources)) attrs) ++
        "\" />" ∧
    enMediaHash attrs = toLowerStr (enMediaRawHash attrs) ∧
    enMediaAlt (buildExistingResourceMap (some resources)) attrs ≠ "" ∧
    (∀ (mp : List (String × MarkdownExistingResource)) (attrs' : String),
      (∃ rest : String, enMediaReplacement mp attrs' =
        "<img src=\"evernote-resource:" ++ (enMediaHash attrs' ++ rest)) ∨
      (∃ rest : String, enMediaReplacement mp attrs' =
        "<a href=\"evernote-resource:" ++ (enMediaHash attrs' ++ rest))) := by
  refine ⟨?_, rfl, ?_, ?_⟩
  · rw [enMediaReplacement, if_pos himg]
  · have hhash : enMediaHash attrs ≠ "" :=
      buildMap_lookup_key_ne_empty resources _ ex hmap
    rw [enMediaAlt]
    apply jsOrStr_ne_empty
    rw [enMediaDisplayName]
    exact jsOrStr_ne_empty _ (jsOrStr_ne_empty _ (jsOrStr_ne_empty _ hhash))
  · intro mp attrs'
    rw [enMediaReplacement]
    split
    · left
      refine ⟨"\" alt=\"" ++
        escapeAttribute (enMediaAlt mp attrs') ++
        "\" data-evernote-type=\"" ++
        escapeAttribute (enMediaType mp attrs') ++ "\" />", ?_⟩
      simp [String.append_assoc]
    · right
      refine ⟨"\" data-evernote-type=\"" ++
        escapeAttribute (enMediaType mp attrs') ++ "\">" ++
        escapeHtml (enMediaDisplayName mp attrs') ++ "</a>", ?_⟩
      simp [String.append_assoc]

theorem enml_enMedia_image_rewrite_witness :
    mapGet
      (buildExistingResourceMap
        (some [⟨"ABCDEF0123456789ABCDEF0123456789", some "image/png",
          some "photo.png", none, none⟩]))
      (enMediaHash "hash=\"ABCDEF0123456789ABCDEF0123456789\"") =
      some ⟨"ABCDEF0123456789ABCDEF0123456789", some "image/png",
        some "photo.png", none, none⟩ ∧
    enMediaReplacement
      (buildExistingResourceMap
        (some [⟨"ABCDEF0123456789ABCDEF0123456789", some "image/png",
          some "photo.png", none, none⟩]))
      "hash=\"ABCDEF0123456789ABCDEF0123456789\"" =
      "<img src=\"evernote-resource:abcdef0123456789abcdef0123456789\" alt=\"photo.png\" data-evernote-type=\"image/png\" />" ∧
    enMediaAlt
      (buildExistingResourceMap
        (some [⟨"ABCDEF0123456789ABCDEF0123456789", some "image/png",
          some "photo.png", none, none⟩]))
      "hash=\"ABCDEF0123456789ABCDEF0123456789\"" ≠ "" := by
  refine ⟨by decide, by decide, ?_⟩
  exact (enml_enMedia_image_rewrite
    [⟨"ABCDEF0123456789ABCDEF0123456789", some "image/png",
      some "photo.png", none, none⟩]
    "hash=\"ABCDEF0123456789ABCDEF0123456789\""
    ⟨"ABCDEF0123456789ABCDEF0123456789", some "image/png",
      some "photo.png", none, none⟩
    (by decide) (by decide)).2.2.1

theorem mapSet_entries {α : Type} (Q : String × α → Prop)
    (m : List (String × α)) (k : String) (v : α)
    (hm : ∀ p ∈ m, Q p) (hkv : Q (k, v)) :
    ∀ p ∈ mapSet m k v, Q p := by
  intro p hp
  rw [mapSet] at hp
  split at hp
  · obtain ⟨q, hq, hpq⟩ := List.mem_map.1 hp
    by_cases hqk : q.1 == k
    · rw [if_pos hqk] at hpq
      rw [← hpq]
      exact hkv
    · rw [if_neg hqk] at hpq
      rw [← hpq]
      exact hm q hq
  · rcases List.mem_append.1 hp with h | h
    · exact hm p h
    · have hpv : p = (k, v) := by simpa using h
      rw [hpv]
      exact hkv

theorem buildMap_fold_entries (rs₀ : List MarkdownExistingResource) :
    ∀ (rs : List MarkdownExistingResource)
      (m : List (String × MarkdownExistingResource)),
      (∀ r ∈ rs, r ∈ rs₀) →
      (∀ p ∈ m, ∃ r, r ∈ rs₀ ∧ p = (toLowerStr r.hashHex, r)) →
      ∀ p ∈ rs.foldl
        (fun m r =>
          if r.hashHex = "" then m else mapSet m (toLowerStr r.hashHex) r) m,
        ∃ r, r ∈ rs₀ ∧ p = (toLowerStr r.hashHex, r) := by
  intro rs
  induction rs with
  | nil =>
    intro m hrs hm p hp
    exact hm p hp
  | cons r rest ih =>
    intro m hrs hm p hp
    rw [List.foldl_cons] at hp
    refine ih _ (fun q hq => hrs q (List.mem_cons_of_mem r hq)) ?_ p hp
    intro q hq
    by_cases hr : r.hashHex = ""
    · rw [if_pos hr] at hq
      exact hm q hq
    · rw [if_neg hr] at hq
      refine mapSet_entries
        (fun p => ∃ r', r' ∈ rs₀ ∧ p = (toLowerStr r'.hashHex, r'))
        m (toLowerStr r.hashHex) r hm ?_ q hq
      exact ⟨r, hrs r (List.mem_cons_self r rest), rfl⟩

/-- The resource pseudo-URL matcher accepts any digest written with the
22 case-insensitive hex characters after a case-insensitive scheme and
returns the lowercased digest. -/
theorem matchResourceUrl_of_hex (pref : String)
    (hpref : toLowerList pref.data = "evernote-resource:".data)
    (hpl : pref.data.length = 18) (H : String)
    (hlen : H.data.length = 32) (hhex : H.data.all isHexDigitCI = true) :
    matchResourceUrl (pref ++ H).data = some (toLowerList H.data) := by
  rw [matchResourceUrl]
  have htake : (pref ++ H).data.take 18 = pref.data := by
    rw [String.data_append, ← hpl]
    exact List.take_left pref.data H.data
  have hdrop : (pref ++ H).data.drop 18 = H.data := by
    rw [String.data_append, ← hpl]
    exact List.drop_left pref.data H.data
  rw [htake, hdrop, if_pos ⟨hpref, hlen, hhex⟩]

/-- C9: digest matching is case-insensitive while the emitted encoding is
lowercase: the forward matcher accepts uppercase hex (and an
upper/mixed-case scheme) and lowercases before the registry lookup; the
reverse converter lowercases the `hash` attribute before its lookup; the
known-resource map is keyed by lowercased digest; hence an uppercase-hex
reference to a known attachment resolves to that attachment, emitting
the lowercase digest. -/
theorem digest_matching_case_insensitive :
    (∀ H : String, H.data.length = 32 → H.data.all isHexDigitCI = true →
      matchResourceUrl ("evernote-resource:" ++ H).data =
        some (toLowerList H.data) ∧
      matchResourceUrl ("EVERNOTE-Resource:" ++ H).data =
        some (toLowerList H.data)) ∧
    (∀ attrs : String,
      enMediaHash attrs = toLowerStr (enMediaRawHash attrs)) ∧
    (∀ (rs : List MarkdownExistingResource)
        (p : String × MarkdownExistingResource),
      p ∈ buildExistingResourceMap (some rs) →
      ∃ r, r ∈ rs ∧ p.1 = toLowerStr r.hashHex ∧ p.2 = r) ∧
    (∀ (resources : List MarkdownExistingResource)
        (ex : MarkdownExistingResource) (H : String) (env : FsEnv)
        (title : Option String) (text : String) (reg : AttachmentRegistry),
      H.data.length = 32 → H.data.all isHexDigitCI = true →
      jsTrimStr ("evernote-resource:" ++ H) = "evernote-resource:" ++ H →
      mapGet (buildExistingResourceMap (some resources))
        ⟨toLowerList H.data⟩ = some ex →
      renderImage env (some ("evernote-resource:" ++ H)) title text
        (buildExistingResourceMap (some resources)) reg =
        ("<en-media type=\"" ++
            (registerAttachment
              ⟨⟨toLowerList H.data⟩, hexToBytes (toLowerList H.data),
                jsOrStr ex.mimeType "application/octet-stream", ex.filename,
                none, ex.sourceURL, none, ex.resource, false⟩ reg).1.mimeType ++
            "\" hash=\"" ++ (⟨toLowerList H.data⟩ : String) ++ "\"" ++
            altAttrOf text ++ titleAttrOf title ++ " />",
          (registerAttachment
            ⟨⟨toLowerList H.data⟩, hexToBytes (toLowerList H.data),
              jsOrStr ex.mimeType "application/octet-stream", ex.filename,
              none, ex.sourceURL, none, ex.resource, false⟩ reg).2)) := by
  refine ⟨?_, fun attrs => rfl, ?_, ?_⟩
  · intro H hlen hhex
    exact ⟨matchResourceUrl_of_hex "evernote-resource:" (by decide) (by decide)
        H hlen hhex,
      matchResourceUrl_of_hex "EVERNOTE-Resource:" (by decide) (by decide)
        H hlen hhex⟩
  · intro rs p hp
    obtain ⟨r, hr, hpr⟩ :=
      buildMap_fold_entries rs rs [] (fun q hq => hq) (by simp) p hp
    exact ⟨r, hr, by rw [hpr], by rw [hpr]⟩
  · intro resources ex H env title text reg hlen hhex htrim hmap
    have hmatch : matchResourceUrl ("evernote-resource:" ++ H).data =
        some (toLowerList H.data) :=
      matchResourceUrl_of_hex "evernote-resource:" (by decide) (by decide)
        H hlen hhex
    have hne : ("evernote-resource:" ++ H) ≠ "" := by
      intro hc
      have hd := congrArg String.data hc
      rw [String.data_append] at hd
      simp at hd
    rw [renderImage]
    simp only [Option.getD, htrim, if_neg hne, hmatch, hmap]

theorem digest_matching_case_insensitive_witness :
    (("ABCDEF0123456789ABCDEF0123456789" : String).data.length = 32) ∧
    (("ABCDEF0123456789ABCDEF0123456789" : String).data.all isHexDigitCI
      = true) ∧
    (jsTrimStr ("evernote-resource:" ++ "ABCDEF0123456789ABCDEF0123456789") =
      "evernote-resource:" ++ "ABCDEF0123456789ABCDEF0123456789") ∧
    (mapGet
      (buildExistingResourceMap
        (some [⟨"ABCDEF0123456789ABCDEF0123456789", some "image/png",
          some "photo.png", none, none⟩]))
      ⟨toLowerList ("ABCDEF0123456789ABCDEF0123456789" : String).data⟩ =
      some ⟨"ABCDEF0123456789ABCDEF0123456789", some "image/png",
        some "photo.png", none, none⟩) ∧
    renderImage ⟨fun s => some s, fun s => s, "/home/u", "/w",
        fun _ => false, fun _ => none, fun _ => none⟩
      (some ("evernote-resource:" ++ "ABCDEF0123456789ABCDEF0123456789"))
      none "pic"
      (buildExistingResourceMap
        (some [⟨"ABCDEF0123456789ABCDEF0123456789", some "image/png",
          some "photo.png", none, none⟩]))
      emptyRegistry =
      ("<en-media type=\"" ++
          (registerAttachment
            ⟨⟨toLowerList ("ABCDEF0123456789ABCDEF0123456789" : String).data⟩,
              hexToBytes
                (toLowerList
                  ("ABCDEF0123456789ABCDEF0123456789" : String).data),
              jsOrStr (some "image/png") "application/octet-stream",
              some "photo.png", none, none, none, none, false⟩
            emptyRegistry).1.mimeType ++
          "\" hash=\"" ++
          (⟨toLowerList ("ABCDEF0123456789ABCDEF0123456789" : String).data⟩ :
            String) ++ "\"" ++
          altAttrOf "pic" ++ titleAttrOf none ++ " />",
        (registerAttachment
          ⟨⟨toLowerList ("ABCDEF0123456789ABCDEF0123456789" : String).data⟩,
            hexToBytes
              (toLowerList
                ("ABCDEF0123456789ABCDEF0123456789" : String).data),
            jsOrStr (some "image/png") "application/octet-stream",
            some "photo.png", none, none, none, none, false⟩
          emptyRegistry).2) :=
  ⟨by decide, by decide, by decide, by decide,
    digest_matching_case_insensitive.2.2.2
      [⟨"ABCDEF0123456789ABCDEF0123456789", some "image/png",
        some "photo.png", none, none⟩]
      ⟨"ABCDEF0123456789ABCDEF0123456789", some "image/png",
        some "photo.png", none, none⟩
      "ABCDEF0123456789ABCDEF0123456789"
      ⟨fun s => some s, fun s => s, "/home/u", "/w",
        fun _ => false, fun _ => none, fun _ => none⟩
      none "pic" emptyRegistry
      (by decide) (by decide) (by decide) (by decide)⟩

/-- C5: an image/link target that is a resource pseudo-URL with an
unregistered digest, or that is not a readable local file (in particular
any non-`file` scheme — see the second conjunct), or whose local read
fails, degrades to a plain hyperlink: `renderImage` returns exactly
`fallbackLink` for it, registers nothing (the registry is returned
unchanged), performs no fetch (the embedding has no network effect and
the output is a plain link), and the conversion still returns normally. -/
theorem renderImage_fallback_on_unresolvable
    (env : FsEnv) (href : Option String) (title : Option String)
    (text : String) (existingMap : List (String × MarkdownExistingResource))
    (reg : AttachmentRegistry)
    (hne : jsTrimStr (href.getD "") ≠ "")
    (hcase :
      (∃ d, matchResourceUrl (jsTrimStr (href.getD "")).data = some d ∧
        mapGet existingMap ⟨d⟩ = none) ∨
      (matchResourceUrl (jsTrimStr (href.getD "")).data = none ∧
        resolveLocalPath env (jsTrimStr (href.getD "")) = none) ∨
      (matchResourceUrl (jsTrimStr (href.getD "")).data = none ∧
        ∃ loc, resolveLocalPath env (jsTrimStr (href.getD "")) = some loc ∧
          env.readFile loc.path = none)) :
    (renderImage env href title text existingMap reg =
      (fallbackLink (jsTrimStr (href.getD ""))
        (if text = "" then jsTrimStr (href.getD "") else text) title,
        reg)) ∧
    (∀ (u : String) (sch : List Char),
      schemeOf (resolveCandidate env u) = some sch → sch ≠ "file".data →
      resolveLocalPath env u = none) := by
  constructor
  · rw [renderImage]
    rcases hcase with ⟨d, hd, hnone⟩ | ⟨hm, hres⟩ | ⟨hm, loc, hres, hread⟩
    · simp only [if_neg hne, hd, hnone]
    · simp only [if_neg hne, hm, hres]
    · simp only [if_neg hne, hm, hres, hread]
  · intro u sch hsch hnf
    rw [resolveLocalPath]
    simp only [hsch]
    rw [if_neg hnf]

theorem renderImage_fallback_on_unresolvable_witness :
    (jsTrimStr ((some "https://example.com/a.png" : Option String).getD "")
      ≠ "") ∧
    (matchResourceUrl
        (jsTrimStr
          ((some "https://example.com/a.png" : Option String).getD "")).data
      = none ∧
      resolveLocalPath
        ⟨fun s => some s, fun s => s, "/home/u", "/w", fun _ => false,
          fun _ => none, fun _ => none⟩
        (jsTrimStr
          ((some "https://example.com/a.png" : Option String).getD "")) =
        none) ∧
    renderImage
      ⟨fun s => some s, fun s => s, "/home/u", "/w", fun _ => false,
        fun _ => none, fun _ => none⟩
      (some "https://example.com/a.png") none "x" [] emptyRegistry =
      (fallbackLink
        (jsTrimStr ((some "https://example.com/a.png" : Option String).getD ""))
        (if ("x" : String) = "" then
          jsTrimStr ((some "https://example.com/a.png" : Option String).getD "")
        else "x") none,
        emptyRegistry) :=
  ⟨by decide, ⟨by decide, by decide⟩,
    (renderImage_fallback_on_unresolvable
      ⟨fun s => some s, fun s => s, "/home/u", "/w", fun _ => false,
        fun _ => none, fun _ => none⟩
      (some "https://example.com/a.png") none "x" [] emptyRegistry
      (by decide) (Or.inr (Or.inl ⟨by decide, by decide⟩))).1⟩

end Spec2Proof
